import Mathlib

/-!
# Verification of the Autotune pitch-correction pipeline

Shallow embedding of the pitch-tracking and chunked correction pipeline of the
repository (main-thread analysis and the worker overlap-add pass).  Sample
values and frequencies are modelled by real numbers; the scale quantizers are
stated over an arbitrary linear ordered field with a floor so that the same
definitions serve the worker (real inputs) and rational test points.
-/

/-! ## Embedded definitions (translated from the source) -/

/-- JavaScript `%` on integers: remainder with the sign of the dividend. -/
def jsRem (n m : ℤ) : ℤ := Int.tmod n m

/-- The `mod(n, m) = ((n % m) + m) % m` normalisation used throughout the source. -/
def jsMod (n m : ℤ) : ℤ := jsRem (jsRem n m + m) m

/-- JavaScript `Math.round`: round half toward positive infinity. -/
def jsRound {α : Type} [LinearOrderedField α] [FloorRing α] (q : α) : ℤ :=
  ⌊q + 1 / 2⌋

/-- `clampInt(v, a, b)` from the main thread: round, then clamp into `[a, b]`. -/
def clampInt {α : Type} [LinearOrderedField α] [FloorRing α] (v : α) (a b : ℤ) : ℤ :=
  max a (min b (jsRound v))

/-- `clamp(v, lo, hi)` from the worker. -/
def clampQ {α : Type} [LinearOrderedField α] (v lo hi : α) : α :=
  max lo (min hi v)

/-- `MAJOR_SCALE_STEPS`: semitone offsets of the major scale relative to the root. -/
def MAJOR_SCALE_STEPS : List ℤ := [0, 2, 4, 5, 7, 9, 11]

/-- `isInMajorScale(midiInt, rootPc)` from the main thread. -/
def isInMajorScale (midiInt rootPc : ℤ) : Bool :=
  let pc := jsMod midiInt 12
  let rel := jsRem (pc - rootPc + 12) 12
  MAJOR_SCALE_STEPS.contains rel

/-- `buildMajorScaleMidi(rootMidi)` from the worker: the pitch-class set of the
major scale on the given root (a `Set` in the source, a list here; only
membership is ever used). -/
def buildMajorScaleMidi (rootMidi : ℤ) : List ℤ :=
  let rootPc := jsMod rootMidi 12
  MAJOR_SCALE_STEPS.map (fun d => jsMod (rootPc + d) 12)

/-- `nearestMidiInMajorScale(midiFloat, rootMidiInt)` from the main thread:
search outward from the rounded target, testing `center + d` before
`center - d` at each distance `d = 0, …, 12`; fall back to the center. -/
def nearestMidiInMajorScale {α : Type} [LinearOrderedField α] [FloorRing α]
    (midiFloat : α) (rootMidiInt : ℤ) : ℤ :=
  let rootPc := jsMod rootMidiInt 12
  let center := jsRound midiFloat
  match (List.range 13).findSome? (fun d : ℕ =>
      if isInMajorScale (center + (d : ℤ)) rootPc then some (center + (d : ℤ))
      else if isInMajorScale (center - (d : ℤ)) rootPc then some (center - (d : ℤ))
      else none) with
  | some m => m
  | none => center

/-- One step of the candidate scan in the worker's `nearestInScale`: keep the
current best unless the candidate is in scale and strictly closer (the running
best distance starts as `+Infinity`, modelled by `none`). -/
def nisStep {α : Type} [LinearOrderedField α] (midiFloat : α) (scalePcSet : List ℤ)
    (st : ℤ × Option α) (m : ℤ) : ℤ × Option α :=
  if scalePcSet.contains (jsMod m 12) then
    let dist := |(m : α) - midiFloat|
    match st.2 with
    | none => (m, some dist)
    | some bd => if dist < bd then (m, some dist) else st
  else st

/-- `nearestInScale(midiFloat, scalePcSet)` from the worker: scan integer MIDI
candidates `m0 + d` for `d = -12, …, 12` keeping the strictly closest in-scale
one. -/
def nearestInScale {α : Type} [LinearOrderedField α] [FloorRing α]
    (midiFloat : α) (scalePcSet : List ℤ) : ℤ :=
  let m0 := jsRound midiFloat
  (((List.range 25).map (fun k : ℕ => m0 + ((k : ℤ) - 12))).foldl
    (nisStep midiFloat scalePcSet) (m0, none)).1

/-- The pitch-class relation tested by both scale-membership predicates. -/
def inScaleRel (r : ℤ) : Prop :=
  r = 0 ∨ r = 2 ∨ r = 4 ∨ r = 5 ∨ r = 7 ∨ r = 9 ∨ r = 11

/-- The frozen claim C1, formalised: both quantizers resolve an exact tie
between two in-scale notes upward. -/
def upwardTieBreakClaim : Prop :=
  ∀ (midi : ℝ) (root a b : ℤ),
    (buildMajorScaleMidi root).contains (jsMod a 12) = true →
    (buildMajorScaleMidi root).contains (jsMod b 12) = true →
    a < b → midi = ((a : ℝ) + (b : ℝ)) / 2 →
    (∀ m : ℤ, (buildMajorScaleMidi root).contains (jsMod m 12) = true →
      (b : ℝ) - midi ≤ |(m : ℝ) - midi|) →
    nearestInScale midi (buildMajorScaleMidi root) = b

/-- The frozen claim C8, formalised: both quantizers are idempotent on every
target whose rounded value is in scale. -/
def quantizationIdempotentClaim : Prop :=
  ∀ (midi : ℝ) (root : ℤ),
    (buildMajorScaleMidi root).contains (jsMod (jsRound midi) 12) = true →
    nearestInScale midi (buildMajorScaleMidi root) = jsRound midi

/-- `hzToMidi(hz) = 69 + 12·log2(hz/440)`. -/
noncomputable def hzToMidi (hz : ℝ) : ℝ := 69 + 12 * Real.logb 2 (hz / 440)

/-- `midiToHz(m) = 440·2^((m-69)/12)`. -/
noncomputable def midiToHz (m : ℝ) : ℝ := 440 * (2 : ℝ) ^ ((m - 69) / 12)

/-- `dbToLin(db) = 10^(db/20)`. -/
noncomputable def dbToLin (db : ℝ) : ℝ := (10 : ℝ) ^ (db / 20)

/-- `clamp01` from the worker. -/
noncomputable def clamp01 (v : ℝ) : ℝ := clampQ v 0 1

/-- `calcRms(x) = sqrt(Σ x_i² / N)`; also the inline RMS of the worker's
`detectPitch`. -/
noncomputable def calcRms (x : List ℝ) : ℝ :=
  Real.sqrt ((x.map (fun v => v * v)).sum / x.length)

/-- The Hann weight `0.5·(1 - cos(2πi/(N-1)))` applied in `detectPitch`. -/
noncomputable def hannWeight (N i : ℕ) : ℝ :=
  0.5 * (1 - Real.cos (2 * Real.pi * (i : ℝ) / ((N : ℝ) - 1)))

/-- DC removal plus Hann windowing: the `buf` array of `detectPitch`. -/
noncomputable def windowedBuf (x : List ℝ) : List ℝ :=
  let mean := x.sum / x.length
  (List.range x.length).map (fun i => (x.getD i 0 - mean) * hannWeight x.length i)

/-- `ac(buf, lag)`: unnormalised autocorrelation over the valid overlap,
zero for negative lags (as in the source). -/
noncomputable def ac (buf : List ℝ) (lag : ℤ) : ℝ :=
  if lag < 0 then 0
  else (List.zipWith (fun a b => a * b) buf (buf.drop lag.toNat)).sum

/-- The inclusive integer lag range `minLag, …, maxLag` scanned by the search
loops (empty when `maxLag < minLag`). -/
def lagList (minLag maxLag : ℤ) : List ℤ :=
  (List.range (maxLag - minLag + 1).toNat).map (fun k : ℕ => minLag + (k : ℤ))

/-- One step of `detectPitch`'s arg-max scan over lags: the running best value
starts at `-Infinity` (modelled by `none`, with initial best lag `-1`), and is
replaced only on a strict increase. -/
noncomputable def acSearchStep (buf : List ℝ) (st : ℤ × Option ℝ) (lag : ℤ) :
    ℤ × Option ℝ :=
  let s := ac buf lag
  match st.2 with
  | none => (lag, some s)
  | some bv => if s > bv then (lag, some s) else st

/-- The winning lag of `detectPitch`'s autocorrelation scan. -/
noncomputable def bestLagOf (buf : List ℝ) (lags : List ℤ) : ℤ :=
  (lags.foldl (acSearchStep buf) (-1, none)).1

/-- `minLag = floor(sr/maxF)` with the fixed `maxF = 1000` of `detectPitch`. -/
noncomputable def detectMinLag (sr : ℝ) : ℤ := ⌊sr / 1000⌋

/-- `maxLag = min(buf.length - 2, floor(sr/minF))` with the fixed `minF = 80`. -/
noncomputable def detectMaxLag (x : List ℝ) (sr : ℝ) : ℤ :=
  min ((x.length : ℤ) - 2) ⌊sr / 80⌋

/-- The winning lag of `detectPitch` on frame `x`. -/
noncomputable def detectBestLag (x : List ℝ) (sr : ℝ) : ℤ :=
  bestLagOf (windowedBuf x) (lagList (detectMinLag sr) (detectMaxLag x sr))

/-- Parabolic interpolation around the winning lag. -/
noncomputable def refinedLag (x : List ℝ) (sr : ℝ) : ℝ :=
  let buf := windowedBuf x
  let lag := detectBestLag x sr
  let y0 := ac buf (lag - 1)
  let y1 := ac buf lag
  let y2 := ac buf (lag + 1)
  let denom := y0 - 2 * y1 + y2
  let shift := if denom ≠ 0 then 0.5 * (y0 - y2) / denom else 0
  (lag : ℝ) + shift

/-- The refined frequency `sr / refinedLag` (zero when the refined lag is not
positive), before the fixed-bounds check. -/
noncomputable def refinedF0 (x : List ℝ) (sr : ℝ) : ℝ :=
  if refinedLag x sr > 0 then sr / refinedLag x sr else 0

/-- The confidence heuristic `clamp01(ac(bestLag)/ac(0))`. -/
noncomputable def rawConfidence (x : List ℝ) (sr : ℝ) : ℝ :=
  let buf := windowedBuf x
  let zero := ac buf 0
  if zero > 0 then clamp01 (ac buf (detectBestLag x sr) / zero) else 0

/-- `detectPitch(x, sr)` from the worker: returns `(f0, confidence)`, with
`f0 = 0` encoding an absent frequency. -/
noncomputable def detectPitch (x : List ℝ) (sr : ℝ) : ℝ × ℝ :=
  if calcRms (windowedBuf x) < 0.01 then (0, 0)
  else if detectBestLag x sr ≤ 0 then (0, 0)
  else if refinedF0 x sr < 80 ∨ refinedF0 x sr > 1000 then (0, 0.1 * rawConfidence x sr)
  else (refinedF0 x sr, rawConfidence x sr)

/-- `pickRootMidi(pitches, confs)` from the worker: the rounded MIDI value of
the first estimate with positive frequency and confidence at least `0.4`,
defaulting to A4 = 69. -/
noncomputable def pickRootMidi (pitches confs : List ℝ) : ℤ :=
  match (pitches.zip confs).find? (fun pc => decide (pc.1 > 0 ∧ pc.2 ≥ 0.4)) with
  | some pc => jsRound (hzToMidi pc.1)
  | none => 69

/-- The frozen claim C7, formalised: whenever the refined frequency falls
outside caller-supplied bounds `[minFrequency, maxFrequency]` (any bounds in
the configuration's declared ranges), the estimator returns an absent
frequency with `0.1` times the computed confidence. -/
def callerBoundsClaim : Prop :=
  ∀ (x : List ℝ) (sr minF maxF : ℝ),
    40 ≤ minF → minF ≤ 200 → 200 ≤ maxF → maxF ≤ 1200 →
    ¬ calcRms (windowedBuf x) < 0.01 →
    0 < detectBestLag x sr →
    (refinedF0 x sr < minF ∨ refinedF0 x sr > maxF) →
    detectPitch x sr = (0, 0.1 * rawConfidence x sr)

/-- `slicePadded(x, start, len)`: a fixed-length window, zero-padded past the
end of the buffer. -/
def slicePadded (x : List ℝ) (start len : ℕ) : List ℝ :=
  let t := (x.drop start).take len
  t ++ List.replicate (len - t.length) 0

/-- `fitLength(x, len)`: truncate or zero-pad to exactly `len` samples. -/
def fitLength (x : List ℝ) (len : ℕ) : List ℝ :=
  if x.length = len then x
  else if x.length > len then x.take len
  else x ++ List.replicate (len - x.length) 0

/-- `out[pos] += v` on a fixed-length accumulator (writes past the end are
impossible in the source because of the `Math.min` bound; `List.set` ignores
them likewise). -/
def addInto (out : List ℝ) (pos : ℕ) (v : ℝ) : List ℝ :=
  out.set pos (out.getD pos 0 + v)

/-- `softClipInPlace(x, 0.98)`: `v ↦ v / (1 + |v|/0.98)`. -/
noncomputable def softClip (x : List ℝ) : List ℝ :=
  x.map (fun v => v / (1 + |v| / 0.98))

/-- One record of `debug.frames`. -/
structure FrameDebug where
  frame : ℕ
  startSample : ℕ
  f0 : ℝ
  confidence : ℝ
  ratio : ℝ
  targetMidi : Option ℤ

/-- One write of the linear-crossfade region: blend `prevTail[n]` and
`proc[n]` with ramp weight `t = n / max(1, fadeEnd - 1)` and accumulate. -/
noncomputable def crossfadeStep (prevTail proc : List ℝ) (fadeEnd start : ℕ)
    (o : List ℝ) (n : ℕ) : List ℝ :=
  let t : ℝ := (n : ℝ) / ((max 1 (fadeEnd - 1) : ℕ) : ℝ)
  addInto o (start + n) (prevTail.getD n 0 * (1 - t) + proc.getD n 0 * t)

/-- One write of the non-overlap region: accumulate `proc[n]` directly. -/
noncomputable def directStep (proc : List ℝ) (start : ℕ) (o : List ℝ) (n : ℕ) :
    List ℝ :=
  addInto o (start + n) (proc.getD n 0)

/-- The crossfade-and-write stage of one loop iteration of `processAudio`:
blend the first `fadeEnd` samples with the previous tail using a linear ramp,
then add the remaining samples directly. -/
noncomputable def writeChunk (out prevTail proc : List ℝ) (start chunkN overlapN : ℕ) :
    List ℝ :=
  let endIdx := min (start + chunkN) out.length
  let fadeEnd := min overlapN (endIdx - start)
  let out1 := (List.range fadeEnd).foldl (crossfadeStep prevTail proc fadeEnd start) out
  (List.range' fadeEnd ((endIdx - start) - fadeEnd)).foldl (directStep proc start) out1

/-- Mutable state of the overlap-add loop. -/
structure PAState where
  out : List ℝ
  prevTail : List ℝ
  frames : List FrameDebug

/-- The body of one iteration of the overlap-add loop of `processAudio`. -/
noncomputable def paStep (shift : List ℝ → ℝ → List ℝ) (sr : ℝ) (scale : List ℤ)
    (input : List ℝ) (chunkN overlapN : ℕ) (i start : ℕ) (st : PAState) : PAState :=
  let raw := slicePadded input start chunkN
  let fc := detectPitch raw sr
  let rt : ℝ × Option ℤ :=
    if fc.1 > 0 ∧ fc.2 ≥ 0.35 then
      let midi := hzToMidi fc.1
      let tm := nearestInScale midi scale
      (midiToHz (tm : ℝ) / fc.1, some tm)
    else (1, none)
  let shifted := shift raw rt.1
  let proc := fitLength shifted chunkN
  let out1 := writeChunk st.out st.prevTail proc start chunkN overlapN
  let prevTail1 := (proc.drop (chunkN - overlapN)).take overlapN
  { out := out1, prevTail := prevTail1,
    frames := st.frames ++ [⟨i, start, fc.1, fc.2, rt.1, rt.2⟩] }

/-- The overlap-add loop of `processAudio` (`for start < input.length;
start += hopN`).  The loop is driven by a fuel counter for termination; since
the hop is `max 1 (…) ≥ 1`, a fuel of `input.length + 1` never runs out
before the loop condition fails, so the model coincides with the source. -/
noncomputable def paLoop (shift : List ℝ → ℝ → List ℝ) (sr : ℝ) (scale : List ℤ)
    (input : List ℝ) (chunkN overlapN hopN : ℕ)
    (fuel i start : ℕ) (st : PAState) : PAState :=
  if fuel = 0 then st
  else if start < input.length then
    paLoop shift sr scale input chunkN overlapN hopN (fuel - 1) (i + 1)
      (start + hopN) (paStep shift sr scale input chunkN overlapN i start st)
  else st
termination_by fuel
decreasing_by omega

/-- The root-finding pre-pass of `processAudio`: collect `(f0, confidence)` of
every hop position (fuel-driven like `paLoop`). -/
noncomputable def pitchScanLoop (sr : ℝ) (input : List ℝ) (chunkN hopN : ℕ)
    (fuel start : ℕ) (acc : List ℝ × List ℝ) : List ℝ × List ℝ :=
  if fuel = 0 then acc
  else if start < input.length then
    pitchScanLoop sr input chunkN hopN (fuel - 1) (start + hopN)
      (acc.1 ++ [(detectPitch (slicePadded input start chunkN) sr).1],
       acc.2 ++ [(detectPitch (slicePadded input start chunkN) sr).2])
  else acc
termination_by fuel
decreasing_by omega

/-- `processAudio(input)` from the worker, with the ambient worker state
(`SR`, `CHUNK_MS`, `OVERLAP_MS`, the RubberBand `pitchShift` primitive) passed
explicitly.  Returns the output buffer and the per-frame diagnostic records. -/
noncomputable def processAudio (shift : List ℝ → ℝ → List ℝ)
    (SR CHUNK_MS OVERLAP_MS : ℝ) (input : List ℝ) : List ℝ × List FrameDebug :=
  let chunkN : ℕ := (max 1 (jsRound (CHUNK_MS / 1000 * SR))).toNat
  let overlapN : ℕ := (max 1 (jsRound (OVERLAP_MS / 1000 * SR))).toNat
  let hopN : ℕ := max 1 (chunkN - overlapN)
  let pc := pitchScanLoop SR input chunkN hopN (input.length + 1) 0 ([], [])
  let rootMidi := pickRootMidi pc.1 pc.2
  let scale := buildMajorScaleMidi rootMidi
  let st := paLoop shift SR scale input chunkN overlapN hopN (input.length + 1) 0 0
    ⟨List.replicate input.length 0, List.replicate overlapN 0, []⟩
  (softClip st.out, st.frames)

/-- A pass-through shift primitive (used as the concrete external collaborator
in witnesses). -/
def passShift : List ℝ → ℝ → List ℝ := fun frame _ => frame

/-- Post-clamp settings record produced by `getSettings`. -/
structure Settings where
  chunkMs : ℤ
  xfadeMs : ℤ
  gateDb : ℤ
  minF0 : ℤ
  maxF0 : ℤ

/-- The `+field.value || default` idiom of `getSettings`: a zero (or
unparsable) input falls back to the default. -/
def orDefault (v d : ℚ) : ℚ := if v = 0 then d else v

/-- `getSettings()` from the main thread: every field is rounded and clamped
into its bound. -/
def getSettings (chunkMsRaw xfadeMsRaw gateDbRaw minF0Raw maxF0Raw : ℚ) : Settings :=
  { chunkMs := clampInt (orDefault chunkMsRaw 120) 50 200,
    xfadeMs := clampInt (orDefault xfadeMsRaw 12) 5 40,
    gateDb := clampInt (orDefault gateDbRaw (-45)) (-80) (-10),
    minF0 := clampInt (orDefault minF0Raw 70) 40 200,
    maxF0 := clampInt (orDefault maxF0Raw 900) 200 1200 }

/-- The worker's `init` clamp of `CHUNK_MS`. -/
def workerChunkMs (msgChunkMs : ℚ) : ℚ := clampQ msgChunkMs 50 200

/-- The worker's `init` clamp of `OVERLAP_MS` (upper bound
`Math.floor(CHUNK_MS / 2)`). -/
def workerOverlapMs (chunkMs msgOverlapMs : ℚ) : ℚ :=
  clampQ msgOverlapMs 5 ((⌊chunkMs / 2⌋ : ℤ) : ℚ)

/-- Modelled from the spec: the `InvalidConfiguration` validation of §7/§4.5,
which is absent from the source.  It accepts a configuration exactly when
every field lies within its declared bound (`chunkDurationMs ∈ [50,200]`,
`overlapDurationMs ∈ [5, chunkDurationMs/2]`, `gateDb ∈ [-80,-10]`,
`minFrequency ∈ [40,200]`, `maxFrequency ∈ [200,1200]`) and rejects it
(fails fast, producing no settings) otherwise. -/
def validateConfigSpec (chunkMs xfadeMs gateDb minF0 maxF0 : ℚ) : Bool :=
  decide (50 ≤ chunkMs ∧ chunkMs ≤ 200 ∧ 5 ≤ xfadeMs ∧ xfadeMs ≤ chunkMs / 2 ∧
    -80 ≤ gateDb ∧ gateDb ≤ -10 ∧ 40 ≤ minF0 ∧ minF0 ≤ 200 ∧
    200 ≤ maxF0 ∧ maxF0 ≤ 1200)

/-- All settings fields inside their declared bounds. -/
def settingsInBounds (s : Settings) : Prop :=
  50 ≤ s.chunkMs ∧ s.chunkMs ≤ 200 ∧ 5 ≤ s.xfadeMs ∧ s.xfadeMs ≤ 40 ∧
    -80 ≤ s.gateDb ∧ s.gateDb ≤ -10 ∧ 40 ≤ s.minF0 ∧ s.minF0 ≤ 200 ∧
    200 ≤ s.maxF0 ∧ s.maxF0 ≤ 1200

/-- The ascending chunk-start offsets visited by the analysis loops
(`for i; i + chunkSize <= length; i += chunkSize`); empty when the chunk size
is zero (where the source loop would not terminate). -/
def chunkStarts (len cs : ℕ) : List ℕ :=
  if cs = 0 then []
  else (List.range (len + 1)).filter (fun i => i % cs = 0 ∧ i + cs ≤ len)

/-- The AMDF score of one candidate lag (average magnitude difference of the
DC-removed frame against its lagged copy). -/
noncomputable def amdfScore (frame : List ℝ) (mean : ℝ) (lag : ℤ) : ℝ :=
  let n : ℤ := (frame.length : ℤ) - lag
  ((List.range n.toNat).map (fun i =>
    |(frame.getD i 0 - mean) - (frame.getD (i + lag.toNat) 0 - mean)|)).sum / (n : ℝ)

/-- One step of the AMDF arg-min scan (best score starts at `Infinity`,
modelled by `none`; strict improvement required). -/
noncomputable def amdfStep (frame : List ℝ) (mean : ℝ) (st : ℤ × Option ℝ) (lag : ℤ) :
    ℤ × Option ℝ :=
  let score := amdfScore frame mean lag
  match st.2 with
  | none => (lag, some score)
  | some bs => if score < bs then (lag, some score) else st

/-- `estimateF0_AMDF(frame, sr, minLag, maxLag)` from the main thread; `none`
models the source's `null` returns. -/
noncomputable def estimateF0_AMDF (frame : List ℝ) (sr : ℝ) (minLag maxLag : ℤ) :
    Option ℝ :=
  let mean := frame.sum / frame.length
  let r := (lagList minLag maxLag).foldl (amdfStep frame mean) (-1, none)
  if r.1 ≤ 0 then none
  else if calcRms frame < 1e-6 then none
  else
    match r.2 with
    | some bs => if bs > calcRms frame * 2 then none else some (sr / (r.1 : ℝ))
    | none => none

/-- Mutable state of the analysis loop of `analyzeMonophonicPitch` (the
note-name strings of the preview are elided; the preview keeps the rounded
source MIDI and its in-key target). -/
structure AnalyzeState where
  totalChunks : ℕ
  voicedCount : ℕ
  firstHz : Option ℝ
  firstMidi : Option ℝ
  preview : List (ℤ × ℤ)

/-- One iteration of the analysis loop of `analyzeMonophonicPitch`. -/
noncomputable def analyzeStep (mono : List ℝ) (sr : ℝ) (s : Settings) (gateLin : ℝ)
    (minLag maxLag : ℤ) (chunkSize : ℕ) (a : AnalyzeState) (i : ℕ) : AnalyzeState :=
  let a1 := { a with totalChunks := a.totalChunks + 1 }
  let slice := (mono.drop i).take chunkSize
  if calcRms slice < gateLin then a1
  else
    match estimateF0_AMDF slice sr minLag maxLag with
    | none => a1
    | some hz =>
      if hz = 0 then a1
      else if hz < (s.minF0 : ℝ) ∨ hz > (s.maxF0 : ℝ) then a1
      else
        let a2 := { a1 with voicedCount := a1.voicedCount + 1 }
        let a3 := if a2.firstHz = none then
            { a2 with firstHz := some hz, firstMidi := some (hzToMidi hz) } else a2
        match a3.firstMidi with
        | some fm =>
          if a3.preview.length < 10 then
            { a3 with preview := a3.preview ++
              [(jsRound (hzToMidi hz), nearestMidiInMajorScale (hzToMidi hz) (jsRound fm))] }
          else a3
        | none => a3

/-- The analysis summary (UI note-name strings elided). -/
structure AnalysisResult where
  totalChunks : ℕ
  voicedCount : ℕ
  firstHz : Option ℝ
  keyRootMidi : Option ℤ
  preview : List (ℤ × ℤ)

/-- `analyzeMonophonicPitch(mono, sr, settings)` from the main thread. -/
noncomputable def analyzeMonophonicPitch (mono : List ℝ) (sr : ℝ) (s : Settings) :
    AnalysisResult :=
  let chunkSize := (⌊sr * ((s.chunkMs : ℝ) / 1000)⌋).toNat
  let gateLin := dbToLin (s.gateDb : ℝ)
  let minLag := ⌊sr / (s.maxF0 : ℝ)⌋
  let maxLag := ⌊sr / (s.minF0 : ℝ)⌋
  let fin := (chunkStarts mono.length chunkSize).foldl
    (analyzeStep mono sr s gateLin minLag maxLag chunkSize) ⟨0, 0, none, none, []⟩
  match fin.firstMidi with
  | none => ⟨fin.totalChunks, fin.voicedCount, none, none, []⟩
  | some fm => ⟨fin.totalChunks, fin.voicedCount, fin.firstHz, some (jsRound fm), fin.preview⟩

/-- One chunk-plan entry of `buildChunkPitchPlan`. -/
structure ChunkEntry where
  start : ℕ
  length : ℕ
  xfade : ℕ
  voiced : Bool
  f0Hz : Option ℝ
  midi : Option ℝ
  targetMidi : Option ℤ
  shiftSemis : ℝ

/-- The per-chunk computation of `buildChunkPitchPlan`'s second pass. -/
noncomputable def planEntry (mono : List ℝ) (sr : ℝ) (s : Settings) (gateLin : ℝ)
    (minLag maxLag : ℤ) (keyRoot : Option ℤ) (chunkSize xfade : ℕ) (i : ℕ) :
    ChunkEntry :=
  let slice := (mono.drop i).take chunkSize
  if ¬ calcRms slice < gateLin ∧ keyRoot.isSome then
    match keyRoot, estimateF0_AMDF slice sr minLag maxLag with
    | some kr, some hz =>
      if hz ≠ 0 ∧ (s.minF0 : ℝ) ≤ hz ∧ hz ≤ (s.maxF0 : ℝ) then
        let midi := hzToMidi hz
        let tm := nearestMidiInMajorScale midi kr
        ⟨i, chunkSize, xfade, true, some hz, some midi, some tm, (tm : ℝ) - midi⟩
      else ⟨i, chunkSize, xfade, false, none, none, none, 0⟩
    | _, _ => ⟨i, chunkSize, xfade, false, none, none, none, 0⟩
  else ⟨i, chunkSize, xfade, false, none, none, none, 0⟩

/-- `buildChunkPitchPlan(mono, sr, settings)` from the main thread: the first
pass picks the key root from the first gated chunk with a non-null AMDF
estimate; the second pass builds one entry per chunk. -/
noncomputable def buildChunkPitchPlan (mono : List ℝ) (sr : ℝ) (s : Settings) :
    Option ℤ × List ChunkEntry :=
  let chunkSize := (⌊sr * ((s.chunkMs : ℝ) / 1000)⌋).toNat
  let xfade := (⌊sr * ((s.xfadeMs : ℝ) / 1000)⌋).toNat
  let gateLin := dbToLin (s.gateDb : ℝ)
  let minLag := ⌊sr / (s.maxF0 : ℝ)⌋
  let maxLag := ⌊sr / (s.minF0 : ℝ)⌋
  let keyRoot := (chunkStarts mono.length chunkSize).findSome? (fun i =>
    let slice := (mono.drop i).take chunkSize
    if calcRms slice < gateLin then none
    else
      match estimateF0_AMDF slice sr minLag maxLag with
      | none => none
      | some hz => if hz = 0 then none else some (jsRound (hzToMidi hz)))
  (keyRoot, (chunkStarts mono.length chunkSize).map
    (planEntry mono sr s gateLin minLag maxLag keyRoot chunkSize xfade))

/-- The frozen claim C9, formalised: a configuration rejected by the
spec-modelled validation never flows on as an in-bounds settings record —
i.e. out-of-bounds fields are rejected rather than silently adjusted. -/
def failFastClaim : Prop :=
  ∀ c x g mn mx : ℚ, validateConfigSpec c x g mn mx = false →
    ¬ settingsInBounds (getSettings c x g mn mx)

/-! ## Theorems -/

theorem tmod_twelve_bounds (n : ℤ) : -12 < Int.tmod n 12 ∧ Int.tmod n 12 < 12 := by
  cases n with
  | ofNat m =>
    have h : Int.tmod (Int.ofNat m) 12 = (m : ℤ) % 12 := rfl
    rw [h]
    constructor
    · have := Int.emod_nonneg (m : ℤ) (b := 12) (by norm_num)
      omega
    · exact Int.emod_lt_of_pos _ (by norm_num)
  | negSucc m =>
    have h : Int.tmod (Int.negSucc m) 12 = -(((m : ℤ) + 1) % 12) := rfl
    rw [h]
    have h1 := Int.emod_nonneg ((m : ℤ) + 1) (b := 12) (by norm_num)
    have h2 := Int.emod_lt_of_pos ((m : ℤ) + 1) (b := 12) (by norm_num)
    omega

theorem tmod_twelve_emod (n : ℤ) : Int.tmod n 12 % 12 = n % 12 := by
  have h := Int.tmod_add_tdiv n 12
  have h2 : Int.tmod n 12 = n + 12 * (-(Int.tdiv n 12)) := by linarith
  rw [h2, Int.add_mul_emod_self_left]

theorem jsMod_twelve (n : ℤ) : jsMod n 12 = n % 12 := by
  unfold jsMod jsRem
  have hb := tmod_twelve_bounds n
  have he := tmod_twelve_emod n
  rw [Int.tmod_eq_emod (by omega) (by norm_num)]
  conv_lhs => rw [show Int.tmod n 12 + 12 = Int.tmod n 12 + 12 * 1 by ring]
  rw [Int.add_mul_emod_self_left, he]

theorem jsMod_twelve_nonneg (n : ℤ) : 0 ≤ jsMod n 12 ∧ jsMod n 12 < 12 := by
  rw [jsMod_twelve]
  exact ⟨Int.emod_nonneg _ (by norm_num), Int.emod_lt_of_pos _ (by norm_num)⟩

theorem isInMajorScale_iff (m p : ℤ) (hp0 : 0 ≤ p) (hp1 : p < 12) :
    isInMajorScale m p = true ↔ inScaleRel ((m - p) % 12) := by
  unfold isInMajorScale
  have hpc := jsMod_twelve_nonneg m
  have harg0 : 0 ≤ jsMod m 12 - p + 12 := by omega
  simp only [MAJOR_SCALE_STEPS, List.contains_cons, List.contains_nil,
    Bool.or_eq_true, beq_iff_eq, Bool.false_eq_true, or_false]
  unfold jsRem
  rw [Int.tmod_eq_emod harg0 (by norm_num), jsMod_twelve]
  unfold inScaleRel
  omega

theorem contains_buildMajorScaleMidi (root m : ℤ) :
    (buildMajorScaleMidi root).contains (jsMod m 12) = true ↔
      inScaleRel ((m - root) % 12) := by
  unfold buildMajorScaleMidi
  simp only [MAJOR_SCALE_STEPS, List.map_cons, List.map_nil, List.contains_cons,
    List.contains_nil, Bool.or_eq_true, beq_iff_eq, Bool.false_eq_true, or_false]
  simp only [jsMod_twelve]
  unfold inScaleRel
  omega

/-- Any two consecutive integers contain at least one major-scale member:
the scale's gaps are at most two semitones. -/
theorem inScaleRel_density (x : ℤ) : inScaleRel (x % 12) ∨ inScaleRel ((x + 1) % 12) := by
  unfold inScaleRel
  omega

theorem findSome?_range_first {β : Type} (g : ℕ → Option β) (n k : ℕ) (v : β)
    (hk : k < n) (h0 : ∀ j, j < k → g j = none) (hv : g k = some v) :
    (List.range n).findSome? g = some v := by
  have hn : n = k + (n - k) := by omega
  rw [hn, List.range_add, List.findSome?_append]
  have h₁ : (List.range k).findSome? g = none := by
    rw [List.findSome?_eq_none_iff]
    intro j hj
    exact h0 j (List.mem_range.mp hj)
  rw [h₁, Option.none_or]
  have hnk : n - k = (n - k - 1) + 1 := by omega
  rw [hnk, List.range_succ_eq_map, List.map_cons, List.findSome?_cons]
  have : g (k + 0) = some v := by simpa using hv
  rw [this]

theorem nisStep_not_in {α : Type} [LinearOrderedField α] (midi : α) (pcs : List ℤ)
    (st : ℤ × Option α) (m : ℤ) (hc : ¬pcs.contains (jsMod m 12) = true) :
    nisStep midi pcs st m = st := by
  unfold nisStep
  rw [if_neg hc]

theorem nisStep_in_none {α : Type} [LinearOrderedField α] (midi : α) (pcs : List ℤ)
    (b : ℤ) (m : ℤ) (hc : pcs.contains (jsMod m 12) = true) :
    nisStep midi pcs (b, none) m = (m, some (|(m : α) - midi|)) := by
  unfold nisStep
  rw [if_pos hc]

theorem nisStep_in_lt {α : Type} [LinearOrderedField α] (midi : α) (pcs : List ℤ)
    (b : ℤ) (bd : α) (m : ℤ) (hc : pcs.contains (jsMod m 12) = true)
    (hlt : |(m : α) - midi| < bd) :
    nisStep midi pcs (b, some bd) m = (m, some (|(m : α) - midi|)) := by
  unfold nisStep
  rw [if_pos hc]
  simp only []
  rw [if_pos hlt]

theorem nisStep_in_ge {α : Type} [LinearOrderedField α] (midi : α) (pcs : List ℤ)
    (b : ℤ) (bd : α) (m : ℤ) (hc : pcs.contains (jsMod m 12) = true)
    (hlt : ¬(|(m : α) - midi| < bd)) :
    nisStep midi pcs (b, some bd) m = (b, some bd) := by
  unfold nisStep
  rw [if_pos hc]
  simp only []
  rw [if_neg hlt]

theorem nis_foldl_keep {α : Type} [LinearOrderedField α] (midi : α) (pcs : List ℤ)
    (l : List ℤ) (a : ℤ) (d : α)
    (h : ∀ m ∈ l, pcs.contains (jsMod m 12) = true → ¬(|(m : α) - midi| < d)) :
    l.foldl (nisStep midi pcs) (a, some d) = (a, some d) := by
  induction l with
  | nil => rfl
  | cons m l ih =>
    rw [List.foldl_cons]
    have hstep : nisStep midi pcs (a, some d) m = (a, some d) := by
      by_cases hc : pcs.contains (jsMod m 12) = true
      · exact nisStep_in_ge midi pcs a d m hc (h m (List.mem_cons_self m l) hc)
      · exact nisStep_not_in midi pcs _ m hc
    rw [hstep]
    exact ih (fun m hm hc => h m (List.mem_cons_of_mem _ hm) hc)

theorem nis_foldl_Q {α : Type} [LinearOrderedField α] (midi : α) (pcs : List ℤ) (r : α)
    (l : List ℤ)
    (hl : ∀ m ∈ l, pcs.contains (jsMod m 12) = true → r < |(m : α) - midi|) :
    ∀ st : ℤ × Option α,
      (st.2 = none ∨ ∃ b bd, st = (b, some bd) ∧ bd = |(b : α) - midi| ∧ r < bd) →
      ((l.foldl (nisStep midi pcs) st).2 = none ∨
        ∃ b bd, l.foldl (nisStep midi pcs) st = (b, some bd) ∧
          bd = |(b : α) - midi| ∧ r < bd) := by
  induction l with
  | nil => intro st hst; simpa using hst
  | cons m l ih =>
    intro st hst
    rw [List.foldl_cons]
    apply ih (fun m hm hc => hl m (List.mem_cons_of_mem _ hm) hc)
    by_cases hc : pcs.contains (jsMod m 12) = true
    · have hm := hl m (List.mem_cons_self m l) hc
      rcases hst with hnone | ⟨b, bd, hstv, hbd, hr⟩
      · obtain ⟨s1, s2⟩ := st
        simp only at hnone
        subst hnone
        rw [nisStep_in_none midi pcs s1 m hc]
        exact Or.inr ⟨m, _, rfl, rfl, hm⟩
      · subst hstv
        by_cases hlt : |(m : α) - midi| < bd
        · rw [nisStep_in_lt midi pcs b bd m hc hlt]
          exact Or.inr ⟨m, _, rfl, rfl, hm⟩
        · rw [nisStep_in_ge midi pcs b bd m hc hlt]
          exact Or.inr ⟨b, bd, rfl, hbd, hr⟩
    · rw [nisStep_not_in midi pcs st m hc]
      exact hst

theorem nis_foldl_first {α : Type} [LinearOrderedField α] (midi : α) (pcs : List ℤ)
    (l₁ l₂ : List ℤ) (a b0 : ℤ)
    (ha : pcs.contains (jsMod a 12) = true)
    (h1 : ∀ m ∈ l₁, pcs.contains (jsMod m 12) = true → |(a : α) - midi| < |(m : α) - midi|)
    (h2 : ∀ m ∈ l₂, pcs.contains (jsMod m 12) = true → ¬(|(m : α) - midi| < |(a : α) - midi|)) :
    ((l₁ ++ a :: l₂).foldl (nisStep midi pcs) (b0, none)).1 = a := by
  rw [List.foldl_append, List.foldl_cons]
  have hQ := nis_foldl_Q midi pcs (|(a : α) - midi|) l₁ h1 (b0, none) (Or.inl rfl)
  set st := l₁.foldl (nisStep midi pcs) (b0, none) with hst
  have hstep : nisStep midi pcs st a = (a, some (|(a : α) - midi|)) := by
    rcases hQ with hnone | ⟨b, bd, hstv, hbd, hr⟩
    · obtain ⟨s1, s2⟩ := st
      simp only at hnone
      subst hnone
      exact nisStep_in_none midi pcs s1 a ha
    · rw [hstv]
      exact nisStep_in_lt midi pcs b bd a ha (hbd ▸ hr)
  rw [hstep]
  rw [nis_foldl_keep midi pcs l₂ a _ h2]

/-- Characterisation of the worker's `nearestInScale`: it returns any in-window
in-scale candidate that beats every earlier (lower) candidate strictly and is
not beaten strictly by any later (higher) one — i.e. the lowest in-scale
minimiser of the distance. -/
theorem nearestInScale_spec {α : Type} [LinearOrderedField α] [FloorRing α]
    (midi : α) (pcs : List ℤ) (a : ℤ)
    (ha : pcs.contains (jsMod a 12) = true)
    (hlo : jsRound midi - 12 ≤ a) (hhi : a ≤ jsRound midi + 12)
    (h1 : ∀ m : ℤ, pcs.contains (jsMod m 12) = true → jsRound midi - 12 ≤ m → m < a →
      |(a : α) - midi| < |(m : α) - midi|)
    (h2 : ∀ m : ℤ, pcs.contains (jsMod m 12) = true → m ≤ jsRound midi + 12 → a < m →
      ¬(|(m : α) - midi| < |(a : α) - midi|)) :
    nearestInScale midi pcs = a := by
  unfold nearestInScale
  simp only []
  set m0 := jsRound midi with hm0
  set g : ℕ → ℤ := fun k => m0 + ((k : ℤ) - 12) with hg
  have hk₀nn : 0 ≤ a - m0 + 12 := by omega
  set k₀ : ℕ := (a - m0 + 12).toNat with hk₀def
  have hk₀z : (k₀ : ℤ) = a - m0 + 12 := Int.toNat_of_nonneg hk₀nn
  have hk₀le : k₀ ≤ 24 := by omega
  have h25 : (25 : ℕ) = k₀ + (24 - k₀ + 1) := by omega
  rw [h25, List.range_add, List.map_append, List.map_map, List.range_succ_eq_map,
    List.map_cons, List.map_map]
  have hga : g (k₀ + 0) = a := by
    simp only [hg, Nat.add_zero]
    omega
  rw [show (g ∘ fun x => k₀ + x) 0 = g (k₀ + 0) from rfl, hga]
  apply nis_foldl_first midi pcs _ _ a m0 ha
  · intro m hm hc
    obtain ⟨j, hj, rfl⟩ := List.mem_map.mp hm
    have hjlt : j < k₀ := List.mem_range.mp hj
    apply h1 _ hc
    · simp only [hg]; omega
    · simp only [hg]; omega
  · intro m hm hc
    obtain ⟨j, hj, rfl⟩ := List.mem_map.mp hm
    have hjlt : j < 24 - k₀ := List.mem_range.mp hj
    apply h2 _ hc
    · simp only [Function.comp, hg]; omega
    · simp only [Function.comp, hg]; omega

/-- Characterisation of the main thread's `nearestMidiInMajorScale`: if `b` is
in scale, lies at signed offset `0 ≤ b - center ≤ 12` from the rounded center,
and no candidate tested earlier in the outward search is in scale, the search
returns `b`. -/
theorem nearestMidiInMajorScale_spec {α : Type} [LinearOrderedField α] [FloorRing α]
    (midi : α) (root b : ℤ)
    (hb : isInMajorScale b (jsMod root 12) = true)
    (h0 : 0 ≤ b - jsRound midi) (h12 : b - jsRound midi ≤ 12)
    (hfirst : ∀ d : ℤ, 0 ≤ d → d < b - jsRound midi →
      ¬ isInMajorScale (jsRound midi + d) (jsMod root 12) = true ∧
      ¬ isInMajorScale (jsRound midi - d) (jsMod root 12) = true) :
    nearestMidiInMajorScale midi root = b := by
  unfold nearestMidiInMajorScale
  simp only []
  set c := jsRound midi with hc
  set p := jsMod root 12 with hp
  set δ : ℕ := (b - c).toNat with hδ
  have hδz : (δ : ℤ) = b - c := Int.toNat_of_nonneg h0
  have hfind : (List.range 13).findSome? (fun d : ℕ =>
      if isInMajorScale (c + (d : ℤ)) p then some (c + (d : ℤ))
      else if isInMajorScale (c - (d : ℤ)) p then some (c - (d : ℤ))
      else none) = some b := by
    apply findSome?_range_first _ 13 δ b (by omega)
    · intro j hj
      have hjz : (0 : ℤ) ≤ (j : ℤ) := by omega
      have hjlt : (j : ℤ) < b - c := by omega
      obtain ⟨hup, hdn⟩ := hfirst (j : ℤ) hjz hjlt
      show (if isInMajorScale (c + (j : ℤ)) p then some (c + (j : ℤ))
        else if isInMajorScale (c - (j : ℤ)) p then some (c - (j : ℤ))
        else none) = none
      rw [if_neg hup, if_neg hdn]
    · have hcb : c + (δ : ℤ) = b := by omega
      show (if isInMajorScale (c + (δ : ℤ)) p then some (c + (δ : ℤ))
        else if isInMajorScale (c - (δ : ℤ)) p then some (c - (δ : ℤ))
        else none) = some b
      rw [hcb, if_pos hb]
  rw [hfind]

theorem sub_jsRound_bounds {α : Type} [LinearOrderedField α] [FloorRing α] (q : α) :
    -(1 / 2) ≤ q - (jsRound q : α) ∧ q - (jsRound q : α) < 1 / 2 := by
  unfold jsRound
  have h1 := Int.floor_le (q + 1 / 2)
  have h2 := Int.lt_floor_add_one (q + 1 / 2)
  constructor <;> linarith

theorem exists_isInMajorScale_near {α : Type} [LinearOrderedField α] [FloorRing α]
    (midi : α) (p : ℤ) (hp0 : 0 ≤ p) (hp1 : p < 12) :
    ∃ m : ℤ, isInMajorScale m p = true ∧ |(m : α) - midi| ≤ 1 := by
  set k := ⌊midi⌋ with hk
  have hk1 : (k : α) ≤ midi := Int.floor_le midi
  have hk2 : midi < (k : α) + 1 := Int.lt_floor_add_one midi
  rcases inScaleRel_density (k - p) with h | h
  · refine ⟨k, (isInMajorScale_iff k p hp0 hp1).mpr h, ?_⟩
    rw [abs_of_nonpos (by linarith)]
    linarith
  · refine ⟨k + 1, (isInMajorScale_iff (k + 1) p hp0 hp1).mpr (by
      have : k + 1 - p = k - p + 1 := by ring
      rw [this]; exact h), ?_⟩
    rw [abs_of_nonneg (by push_cast; linarith)]
    push_cast
    linarith

theorem exists_contains_near {α : Type} [LinearOrderedField α] [FloorRing α]
    (midi : α) (root : ℤ) :
    ∃ m : ℤ, (buildMajorScaleMidi root).contains (jsMod m 12) = true ∧
      |(m : α) - midi| ≤ 1 := by
  set k := ⌊midi⌋ with hk
  have hk1 : (k : α) ≤ midi := Int.floor_le midi
  have hk2 : midi < (k : α) + 1 := Int.lt_floor_add_one midi
  rcases inScaleRel_density (k - root) with h | h
  · refine ⟨k, (contains_buildMajorScaleMidi root k).mpr h, ?_⟩
    rw [abs_of_nonpos (by linarith)]
    linarith
  · refine ⟨k + 1, (contains_buildMajorScaleMidi root (k + 1)).mpr (by
      have : k + 1 - root = k - root + 1 := by ring
      rw [this]; exact h), ?_⟩
    rw [abs_of_nonneg (by push_cast; linarith)]
    push_cast
    linarith

/-- `nearestMidiInMajorScale` is idempotent on rounded in-scale targets. -/
theorem nearestMidiInMajorScale_idem {α : Type} [LinearOrderedField α] [FloorRing α]
    (midi : α) (root : ℤ)
    (h : isInMajorScale (jsRound midi) (jsMod root 12) = true) :
    nearestMidiInMajorScale midi root = jsRound midi := by
  apply nearestMidiInMajorScale_spec midi root (jsRound midi) h (by omega) (by omega)
  intro d hd0 hdlt
  omega

/-- Upward tie-break of `nearestMidiInMajorScale`: when `a < b` are both in
scale, the target sits exactly midway between them, and no in-scale note is
strictly closer, the search returns the upper note `b`. -/
theorem nearestMidiInMajorScale_upward {α : Type} [LinearOrderedField α] [FloorRing α]
    (midi : α) (root a b : ℤ)
    (_hain : isInMajorScale a (jsMod root 12) = true)
    (hbin : isInMajorScale b (jsMod root 12) = true)
    (hab : a < b) (hmid : midi = ((a : α) + (b : α)) / 2)
    (hmin : ∀ m : ℤ, isInMajorScale m (jsMod root 12) = true →
      (b : α) - midi ≤ |(m : α) - midi|) :
    nearestMidiInMajorScale midi root = b := by
  have hp := jsMod_twelve_nonneg root
  set c := jsRound midi with hc
  set r : α := (b : α) - midi with hr
  have hfb : -(1 / 2) ≤ midi - (c : α) ∧ midi - (c : α) < 1 / 2 := sub_jsRound_bounds midi
  set f : α := midi - (c : α) with hf
  have hba : (1 : α) ≤ (b : α) - (a : α) := by
    have : a + 1 ≤ b := hab
    calc (1 : α) = ((a : α) + 1) - (a : α) := by ring
    _ ≤ (b : α) - (a : α) := by
        have : ((a : ℤ) : α) + 1 ≤ ((b : ℤ) : α) := by exact_mod_cast this
        linarith
  have hr2 : r = ((b : α) - (a : α)) / 2 := by rw [hr, hmid]; ring
  have hrhalf : 1 / 2 ≤ r := by rw [hr2]; linarith
  have hr1 : r ≤ 1 := by
    obtain ⟨m, hm, hmd⟩ := exists_isInMajorScale_near midi (jsMod root 12) hp.1 hp.2
    have := hmin m hm
    calc r ≤ |(m : α) - midi| := this
    _ ≤ 1 := hmd
  have hdelz : ((b - c : ℤ) : α) = r + f := by push_cast; rw [hr, hf]; ring
  have hdel0 : 0 ≤ b - c := by
    have : (0 : α) ≤ ((b - c : ℤ) : α) := by rw [hdelz]; linarith [hfb.1]
    exact_mod_cast this
  have hdel12 : b - c ≤ 12 := by
    have : ((b - c : ℤ) : α) < 2 := by rw [hdelz]; linarith [hfb.2]
    have h2 : b - c < 2 := by exact_mod_cast this
    omega
  apply nearestMidiInMajorScale_spec midi root b hbin hdel0 hdel12
  intro d hd0 hdlt
  have hd0' : (0 : α) ≤ (d : α) := by exact_mod_cast hd0
  have hd1 : (d : α) ≤ r + f - 1 := by
    have : d ≤ b - c - 1 := by omega
    have h' : ((d : ℤ) : α) ≤ ((b - c - 1 : ℤ) : α) := by exact_mod_cast this
    push_cast at h'
    have hbc : ((b : α) - (c : α)) = r + f := by
      have := hdelz
      push_cast at this
      linarith
    linarith
  have hge1 : (1 : α) ≤ r + f := by linarith
  have hrgt : 1 / 2 < r := by
    rcases lt_or_le (1 / 2 : α) r with h | h
    · exact h
    · exfalso
      have : f < 1 / 2 := hfb.2
      linarith
  constructor
  · intro hconin
    have := hmin (c + d) hconin
    have habs : |((c + d : ℤ) : α) - midi| < r := by
      rw [abs_lt]
      constructor
      · push_cast
        have : (c : α) - midi = -f := by rw [hf]; ring
        linarith
      · push_cast
        have : (c : α) - midi = -f := by rw [hf]; ring
        linarith
    linarith [this, habs]
  · intro hconin
    have := hmin (c - d) hconin
    have habs : |((c - d : ℤ) : α) - midi| < r := by
      rw [abs_lt]
      constructor
      · push_cast
        have : (c : α) - midi = -f := by rw [hf]; ring
        linarith [hfb.1]
      · push_cast
        have : (c : α) - midi = -f := by rw [hf]; ring
        linarith [hfb.1, hfb.2]
    linarith [this, habs]

/-- Downward tie-break of the worker's `nearestInScale`: under the same
midpoint situation it returns the lower note `a`, because the scan visits
candidates in ascending order and replaces the running best only on a strict
improvement. -/
theorem nearestInScale_downward {α : Type} [LinearOrderedField α] [FloorRing α]
    (midi : α) (root a b : ℤ)
    (hain : (buildMajorScaleMidi root).contains (jsMod a 12) = true)
    (_hbin : (buildMajorScaleMidi root).contains (jsMod b 12) = true)
    (hab : a < b) (hmid : midi = ((a : α) + (b : α)) / 2)
    (hmin : ∀ m : ℤ, (buildMajorScaleMidi root).contains (jsMod m 12) = true →
      (b : α) - midi ≤ |(m : α) - midi|) :
    nearestInScale midi (buildMajorScaleMidi root) = a := by
  set c := jsRound midi with hc
  set r : α := (b : α) - midi with hr
  have hfb := sub_jsRound_bounds midi
  set f : α := midi - (c : α) with hf
  have hba : (1 : α) ≤ (b : α) - (a : α) := by
    have h' : a + 1 ≤ b := hab
    have : ((a : ℤ) : α) + 1 ≤ ((b : ℤ) : α) := by exact_mod_cast h'
    linarith
  have hr2 : r = ((b : α) - (a : α)) / 2 := by rw [hr, hmid]; ring
  have hrhalf : 1 / 2 ≤ r := by rw [hr2]; linarith
  have hamidi : (a : α) = midi - r := by rw [hr, hmid]; ring
  have hr1 : r ≤ 1 := by
    obtain ⟨m, hm, hmd⟩ := exists_contains_near midi root
    have := hmin m hm
    linarith
  have hacz : ((a - c : ℤ) : α) = f - r := by push_cast; rw [hf, hamidi]; ring
  have haclo : -2 ≤ a - c := by
    have : (-2 : α) ≤ ((a - c : ℤ) : α) := by rw [hacz]; linarith [hfb.1]
    exact_mod_cast this
  have hachi : a - c ≤ 0 := by
    have : ((a - c : ℤ) : α) < 1 := by rw [hacz]; linarith [hfb.2]
    have h1 : a - c < 1 := by exact_mod_cast this
    omega
  have hdista : |(a : α) - midi| = r := by
    rw [hamidi, abs_of_nonpos (by linarith)]
    ring
  apply nearestInScale_spec midi (buildMajorScaleMidi root) a hain (by omega) (by omega)
  · intro m hm _hmlo hmlt
    rw [hdista]
    have hm1 : m ≤ a - 1 := by omega
    have hm1' : ((m : ℤ) : α) ≤ ((a - 1 : ℤ) : α) := by exact_mod_cast hm1
    push_cast at hm1'
    have hmmidi : (m : α) - midi ≤ -(r + 1) := by rw [hamidi] at hm1'; linarith
    have : r + 1 ≤ |(m : α) - midi| := by
      rw [abs_of_nonpos (by linarith)]
      linarith
    linarith
  · intro m hm _hmhi _hmgt
    rw [hdista]
    exact not_lt.mpr (hmin m hm)

/-- `nearestInScale` is idempotent on rounded in-scale targets, except at exact
half-integer targets whose lower neighbour is also in scale. -/
theorem nearestInScale_idem {α : Type} [LinearOrderedField α] [FloorRing α]
    (midi : α) (root : ℤ)
    (h : (buildMajorScaleMidi root).contains (jsMod (jsRound midi) 12) = true)
    (hgood : -(1 / 2) < midi - (jsRound midi : α) ∨
      ¬ (buildMajorScaleMidi root).contains (jsMod (jsRound midi - 1) 12) = true) :
    nearestInScale midi (buildMajorScaleMidi root) = jsRound midi := by
  set c := jsRound midi with hc
  have hfb := sub_jsRound_bounds midi
  set f : α := midi - (c : α) with hf
  have hdistc : |(c : α) - midi| = |f| := by rw [hf, abs_sub_comm]
  apply nearestInScale_spec midi (buildMajorScaleMidi root) c h (by omega) (by omega)
  · intro m hm _hmlo hmlt
    rw [hdistc]
    have hk : 1 ≤ c - m := by omega
    have hk' : (1 : α) ≤ (c : α) - (m : α) := by
      have : ((1 : ℤ) : α) ≤ ((c - m : ℤ) : α) := by exact_mod_cast hk
      push_cast at this
      linarith
    have hmmidi : (m : α) - midi = -(f + ((c : α) - (m : α))) := by rw [hf]; ring
    have habs : |(m : α) - midi| = f + ((c : α) - (m : α)) := by
      rw [hmmidi, abs_neg, abs_of_nonneg (by linarith [hfb.1])]
    rw [habs]
    rcases le_or_lt 2 ((c : α) - (m : α)) with hk2 | hk2
    · have : |f| ≤ 1 / 2 := by
        rw [abs_le]
        constructor <;> linarith [hfb.1, hfb.2]
      linarith
    · have hm1 : m = c - 1 := by
        have h2 : c - m < 2 := by
          by_contra hcon
          push_neg at hcon
          have : ((2 : ℤ) : α) ≤ ((c - m : ℤ) : α) := by exact_mod_cast hcon
          push_cast at this
          linarith
        omega
      rcases hgood with hg | hg
      · have hfpos : -(1 / 2) < f := hg
        have : |f| < 1 / 2 + f + f + 1 / 2 - f := by
          rw [abs_lt]
          constructor <;> linarith [hfb.2]
        have hceq : (c : α) - (m : α) = 1 := by
          rw [hm1]; push_cast; ring
        rw [hceq]
        rw [abs_lt]
        constructor <;> linarith [hfb.2]
      · exfalso
        rw [hm1] at hm
        exact hg hm
  · intro m hm _hmhi hmgt
    rw [hdistc]
    have hk : 1 ≤ m - c := by omega
    have hk' : (1 : α) ≤ (m : α) - (c : α) := by
      have : ((1 : ℤ) : α) ≤ ((m - c : ℤ) : α) := by exact_mod_cast hk
      push_cast at this
      linarith
    have hmmidi : (m : α) - midi = ((m : α) - (c : α)) - f := by rw [hf]; ring
    have habs : |(m : α) - midi| = ((m : α) - (c : α)) - f := by
      rw [hmmidi, abs_of_nonneg (by linarith [hfb.2])]
    rw [habs]
    have hfabs : |f| ≤ 1 / 2 := by
      rw [abs_le]
      constructor <;> linarith [hfb.1, hfb.2]
    intro hcon
    linarith

/-- Every integer is at distance at least `1/2` from a half-integer target. -/
theorem half_integer_min_dist (x : ℝ) (k : ℤ) (hx : x = (k : ℝ) + 1 / 2) :
    ∀ m : ℤ, 1 / 2 ≤ |(m : ℝ) - x| := by
  intro m
  rcases le_or_lt m k with h | h
  · have h' : (m : ℝ) ≤ (k : ℝ) := by exact_mod_cast h
    have : (m : ℝ) - x ≤ -(1 / 2) := by rw [hx]; linarith
    calc (1 : ℝ) / 2 ≤ -((m : ℝ) - x) := by linarith
    _ ≤ |(m : ℝ) - x| := neg_le_abs _
  · have h' : (k : ℝ) + 1 ≤ (m : ℝ) := by exact_mod_cast h
    have : 1 / 2 ≤ (m : ℝ) - x := by rw [hx]; linarith
    calc (1 : ℝ) / 2 ≤ (m : ℝ) - x := this
    _ ≤ |(m : ℝ) - x| := le_abs_self _

/-- C1 counterexample: with root C (MIDI 60) and target `4.5`, the notes E=4
and F=5 are both in C major and equidistant, yet `nearestInScale` returns the
downward candidate 4, refuting the claimed upward tie-break for the worker's
quantizer. -/
theorem C1_counterexample : ¬ upwardTieBreakClaim := by
  intro hcl
  have h4 : (buildMajorScaleMidi 60).contains (jsMod 4 12) = true := by decide
  have h5 : (buildMajorScaleMidi 60).contains (jsMod 5 12) = true := by decide
  have hmid : (9 : ℝ) / 2 = ((4 : ℤ) : ℝ) + 1 / 2 := by norm_num
  have hmin : ∀ m : ℤ, (buildMajorScaleMidi 60).contains (jsMod m 12) = true →
      ((5 : ℤ) : ℝ) - 9 / 2 ≤ |(m : ℝ) - 9 / 2| := by
    intro m _
    have := half_integer_min_dist (9 / 2) 4 hmid m
    push_cast
    linarith
  have hup := hcl (9 / 2) 60 4 5 h4 h5 (by norm_num) (by push_cast; norm_num) hmin
  have hdn := nearestInScale_downward (9 / 2 : ℝ) 60 4 5 h4 h5 (by norm_num)
    (by push_cast; norm_num) hmin
  rw [hup] at hdn
  exact absurd hdn (by norm_num)

/-- C1 (amended): `nearestMidiInMajorScale` resolves exact ties upward, but the
worker's `nearestInScale` resolves them downward; at root pitch class 0 and
target `6.5` (where only G=7 of the two candidates at distance `0.5` is in
scale) both return 7. -/
theorem C1_amended_tie_break :
    (∀ (midi : ℝ) (root a b : ℤ),
      isInMajorScale a (jsMod root 12) = true →
      isInMajorScale b (jsMod root 12) = true →
      a < b → midi = ((a : ℝ) + (b : ℝ)) / 2 →
      (∀ m : ℤ, isInMajorScale m (jsMod root 12) = true →
        (b : ℝ) - midi ≤ |(m : ℝ) - midi|) →
      nearestMidiInMajorScale midi root = b) ∧
    (∀ (midi : ℝ) (root a b : ℤ),
      (buildMajorScaleMidi root).contains (jsMod a 12) = true →
      (buildMajorScaleMidi root).contains (jsMod b 12) = true →
      a < b → midi = ((a : ℝ) + (b : ℝ)) / 2 →
      (∀ m : ℤ, (buildMajorScaleMidi root).contains (jsMod m 12) = true →
        (b : ℝ) - midi ≤ |(m : ℝ) - midi|) →
      nearestInScale midi (buildMajorScaleMidi root) = a) ∧
    nearestMidiInMajorScale ((13 : ℝ) / 2) 60 = 7 ∧
    nearestInScale ((13 : ℝ) / 2) (buildMajorScaleMidi 60) = 7 := by
  refine ⟨fun midi root a b ha hb hab hmid hmin =>
      nearestMidiInMajorScale_upward midi root a b ha hb hab hmid hmin,
    fun midi root a b ha hb hab hmid hmin =>
      nearestInScale_downward midi root a b ha hb hab hmid hmin, ?_, ?_⟩
  · have hround : jsRound ((13 : ℝ) / 2) = 7 := by norm_num [jsRound]
    have h7 : isInMajorScale (jsRound ((13 : ℝ) / 2)) (jsMod 60 12) = true := by
      rw [hround]; decide
    have := nearestMidiInMajorScale_idem ((13 : ℝ) / 2) 60 h7
    rw [hround] at this
    exact this
  · have hround : jsRound ((13 : ℝ) / 2) = 7 := by norm_num [jsRound]
    have h7 : (buildMajorScaleMidi 60).contains (jsMod (jsRound ((13 : ℝ) / 2)) 12) = true := by
      rw [hround]; decide
    have hgood : -(1 / 2 : ℝ) < (13 : ℝ) / 2 - (jsRound ((13 : ℝ) / 2) : ℝ) ∨
        ¬ (buildMajorScaleMidi 60).contains (jsMod (jsRound ((13 : ℝ) / 2) - 1) 12) = true := by
      right
      rw [hround]
      decide
    have := nearestInScale_idem ((13 : ℝ) / 2) 60 h7 hgood
    rw [hround] at this
    exact this

/-- Witness for C1 (amended): the tie at target `4.5` in C major resolves to 5
for the main-thread quantizer and to 4 for the worker quantizer. -/
theorem C1_amended_tie_break_witness :
    nearestMidiInMajorScale ((9 : ℝ) / 2) 60 = 5 ∧
    nearestInScale ((9 : ℝ) / 2) (buildMajorScaleMidi 60) = 4 := by
  have hmid : (9 : ℝ) / 2 = ((4 : ℤ) : ℝ) + 1 / 2 := by norm_num
  have hmin : ∀ m : ℤ, 1 / 2 ≤ |(m : ℝ) - 9 / 2| := half_integer_min_dist (9 / 2) 4 hmid
  constructor
  · exact C1_amended_tie_break.1 (9 / 2) 60 4 5 (by decide) (by decide) (by norm_num)
      (by push_cast; norm_num)
      (fun m _ => by push_cast; linarith [hmin m])
  · exact C1_amended_tie_break.2.1 (9 / 2) 60 4 5 (by decide) (by decide) (by norm_num)
      (by push_cast; norm_num)
      (fun m _ => by push_cast; linarith [hmin m])

/-- C8 counterexample: target `4.5` in C major rounds to `5`, whose pitch
class is in scale, yet `nearestInScale` returns `4`: the worker quantizer is
not idempotent at half-integer targets whose lower neighbour is in scale. -/
theorem C8_counterexample : ¬ quantizationIdempotentClaim := by
  intro hcl
  have hround : jsRound ((9 : ℝ) / 2) = 5 := by norm_num [jsRound]
  have h5 : (buildMajorScaleMidi 60).contains (jsMod (jsRound ((9 : ℝ) / 2)) 12) = true := by
    rw [hround]; decide
  have hcl5 := hcl ((9 : ℝ) / 2) 60 h5
  rw [hround] at hcl5
  have hmid : (9 : ℝ) / 2 = ((4 : ℤ) : ℝ) + 1 / 2 := by norm_num
  have hmin : ∀ m : ℤ, 1 / 2 ≤ |(m : ℝ) - 9 / 2| := half_integer_min_dist (9 / 2) 4 hmid
  have hdn := nearestInScale_downward ((9 : ℝ) / 2) 60 4 5 (by decide) (by decide)
    (by norm_num) (by push_cast; norm_num)
    (fun m _ => by push_cast; linarith [hmin m])
  rw [hcl5] at hdn
  exact absurd hdn (by norm_num)

/-- C8 (amended): `nearestMidiInMajorScale` is idempotent on every in-scale
rounded target; `nearestInScale` is idempotent except when the target is an
exact half-integer whose lower neighbour is also in scale (then it returns
that lower neighbour instead of the rounded value). -/
theorem C8_amended_idempotence :
    (∀ (midi : ℝ) (root : ℤ),
      isInMajorScale (jsRound midi) (jsMod root 12) = true →
      nearestMidiInMajorScale midi root = jsRound midi) ∧
    (∀ (midi : ℝ) (root : ℤ),
      (buildMajorScaleMidi root).contains (jsMod (jsRound midi) 12) = true →
      (-(1 / 2 : ℝ) < midi - (jsRound midi : ℝ) ∨
        ¬ (buildMajorScaleMidi root).contains (jsMod (jsRound midi - 1) 12) = true) →
      nearestInScale midi (buildMajorScaleMidi root) = jsRound midi) :=
  ⟨fun midi root h => nearestMidiInMajorScale_idem midi root h,
   fun midi root h hgood => nearestInScale_idem midi root h hgood⟩

/-- Witness for C8 (amended) at the in-scale target `5` (root C). -/
theorem C8_amended_idempotence_witness :
    nearestMidiInMajorScale ((5 : ℝ)) 60 = 5 ∧
    nearestInScale ((5 : ℝ)) (buildMajorScaleMidi 60) = 5 := by
  have hround : jsRound ((5 : ℝ)) = 5 := by norm_num [jsRound]
  constructor
  · have := C8_amended_idempotence.1 (5 : ℝ) 60 (by rw [hround]; decide)
    rw [hround] at this
    exact this
  · have := C8_amended_idempotence.2 (5 : ℝ) 60 (by rw [hround]; decide)
      (by left; rw [hround]; norm_num)
    rw [hround] at this
    exact this

theorem windowedBuf_replicate_zero (n : ℕ) :
    windowedBuf (List.replicate n (0 : ℝ)) = List.replicate n 0 := by
  unfold windowedBuf
  simp only [List.sum_replicate, smul_zero, zero_div, List.length_replicate]
  rw [List.eq_replicate_iff]
  refine ⟨by simp, ?_⟩
  intro b hb
  obtain ⟨i, _, rfl⟩ := List.mem_map.mp hb
  rw [List.getD_eq_getElem?_getD]
  rcases lt_or_le i n with h | h
  · simp [List.getElem?_replicate, h]
  · rw [List.getElem?_eq_none (by simpa using h)]
    simp

theorem calcRms_replicate_zero (n : ℕ) : calcRms (List.replicate n (0 : ℝ)) = 0 := by
  unfold calcRms
  simp [List.map_replicate, List.sum_replicate]

theorem detectPitch_zero_frame (n : ℕ) (sr : ℝ) :
    detectPitch (List.replicate n (0 : ℝ)) sr = (0, 0) := by
  unfold detectPitch
  rw [windowedBuf_replicate_zero, calcRms_replicate_zero]
  rw [if_pos (by norm_num)]

theorem getD_map_mul (s : ℝ) (l : List ℝ) (i : ℕ) :
    (l.map (fun v => s * v)).getD i 0 = s * l.getD i 0 := by
  rw [List.getD_eq_getElem?_getD, List.getD_eq_getElem?_getD, List.getElem?_map]
  cases l[i]? <;> simp

theorem windowedBuf_smul (s : ℝ) (x : List ℝ) :
    windowedBuf (x.map (fun v => s * v)) = (windowedBuf x).map (fun v => s * v) := by
  unfold windowedBuf
  simp only [List.length_map]
  have hsum : (x.map (fun v => s * v)).sum = s * x.sum := by
    simpa using List.sum_map_mul_left x id s
  rw [hsum, List.map_map]
  apply List.map_congr_left
  intro i _
  simp only [Function.comp]
  rw [getD_map_mul]
  ring

theorem calcRms_smul (s : ℝ) (x : List ℝ) :
    calcRms (x.map (fun v => s * v)) = |s| * calcRms x := by
  unfold calcRms
  simp only [List.map_map, List.length_map]
  have hmap : x.map ((fun v => v * v) ∘ fun v => s * v) =
      x.map (fun v => s ^ 2 * (v * v)) := by
    apply List.map_congr_left
    intro v _
    simp only [Function.comp]
    ring
  rw [hmap]
  have hsum : (x.map (fun v => s ^ 2 * (v * v))).sum =
      s ^ 2 * (x.map (fun v => v * v)).sum := by
    simpa using List.sum_map_mul_left x (fun v => v * v) (s ^ 2)
  rw [hsum, mul_div_assoc, Real.sqrt_mul (sq_nonneg s), Real.sqrt_sq_eq_abs]

/-- C6: the voicing gate — a frame whose DC-removed, Hann-windowed RMS is below
`0.01` yields `(0, 0)` (absent frequency, zero confidence), and scaling any
frame's amplitude toward zero eventually triggers the gate. -/
theorem C6_voicing_gate (x : List ℝ) (sr : ℝ) :
    (calcRms (windowedBuf x) < 0.01 → detectPitch x sr = (0, 0)) ∧
    (∃ s₀ : ℝ, 0 < s₀ ∧ ∀ s : ℝ, 0 ≤ s → s ≤ s₀ →
      detectPitch (x.map (fun v => s * v)) sr = (0, 0)) := by
  constructor
  · intro h
    unfold detectPitch
    rw [if_pos h]
  · have hR : 0 ≤ calcRms (windowedBuf x) := Real.sqrt_nonneg _
    set R := calcRms (windowedBuf x) with hRdef
    refine ⟨0.009 / (R + 1), by positivity, ?_⟩
    intro s hs0 hs1
    have hgate : calcRms (windowedBuf (x.map (fun v => s * v))) < 0.01 := by
      rw [windowedBuf_smul, calcRms_smul, abs_of_nonneg hs0, ← hRdef]
      have hmul : s * R ≤ (0.009 / (R + 1)) * R :=
        mul_le_mul_of_nonneg_right hs1 hR
      have hlt : (0.009 / (R + 1)) * R < 0.01 := by
        rw [div_mul_eq_mul_div, div_lt_iff₀ (by linarith)]
        nlinarith
      linarith
    unfold detectPitch
    rw [if_pos hgate]

/-- Witness for C6 at a concrete silent frame. -/
theorem C6_voicing_gate_witness : detectPitch (List.replicate 3 (0 : ℝ)) 48000 = (0, 0) := by
  apply (C6_voicing_gate (List.replicate 3 (0 : ℝ)) 48000).1
  rw [windowedBuf_replicate_zero, calcRms_replicate_zero]
  norm_num

/-- C5: key inference — `pickRootMidi` scans the estimates in temporal order
and returns the rounded MIDI of the first estimate with a present (positive)
frequency and confidence at least `0.4`; with no qualifying estimate it
returns the fixed default root 69 (concert A, pitch class 9). -/
theorem C5_pickRootMidi (pitches confs : List ℝ) :
    ((∀ pc ∈ pitches.zip confs, ¬(pc.1 > 0 ∧ pc.2 ≥ 0.4)) →
      pickRootMidi pitches confs = 69 ∧ jsMod 69 12 = 9) ∧
    (∀ (l₁ : List (ℝ × ℝ)) (pc : ℝ × ℝ) (l₂ : List (ℝ × ℝ)),
      pitches.zip confs = l₁ ++ pc :: l₂ →
      (∀ q ∈ l₁, ¬(q.1 > 0 ∧ q.2 ≥ 0.4)) →
      pc.1 > 0 → pc.2 ≥ 0.4 →
      pickRootMidi pitches confs = jsRound (hzToMidi pc.1)) := by
  constructor
  · intro hnone
    have hfind : (pitches.zip confs).find?
        (fun pc => decide (pc.1 > 0 ∧ pc.2 ≥ 0.4)) = none := by
      rw [List.find?_eq_none]
      intro q hq
      simpa using hnone q hq
    constructor
    · unfold pickRootMidi
      rw [hfind]
    · decide
  · intro l₁ pc l₂ hsplit hl₁ hp hc
    have hfind : (pitches.zip confs).find?
        (fun pc => decide (pc.1 > 0 ∧ pc.2 ≥ 0.4)) = some pc := by
      rw [hsplit, List.find?_append]
      have h₁ : l₁.find? (fun pc => decide (pc.1 > 0 ∧ pc.2 ≥ 0.4)) = none := by
        rw [List.find?_eq_none]
        intro q hq
        simpa using hl₁ q hq
      rw [h₁, Option.none_or]
      apply List.find?_cons_of_pos
      simpa using ⟨hp, hc⟩
    unfold pickRootMidi
    rw [hfind]

/-- Witness for C5: the first qualifying estimate (440 Hz at confidence 0.5,
after an unvoiced frame) maps to MIDI 69. -/
theorem C5_pickRootMidi_witness : pickRootMidi [0, 440] [0.9, 0.5] = 69 := by
  have h := (C5_pickRootMidi [0, 440] [0.9, 0.5]).2 [((0 : ℝ), (0.9 : ℝ))]
    ((440 : ℝ), (0.5 : ℝ)) [] (by norm_num [List.zip]) ?_ (by norm_num) (by norm_num)
  · rw [h]
    have h440 : hzToMidi 440 = 69 := by
      unfold hzToMidi
      norm_num
    rw [h440]
    unfold jsRound
    norm_num
  · intro q hq
    simp only [List.mem_singleton] at hq
    subst hq
    norm_num

theorem hannWeight_five_zero : hannWeight 5 0 = 0 := by
  unfold hannWeight
  norm_num

theorem hannWeight_five_one : hannWeight 5 1 = 1 / 2 := by
  unfold hannWeight
  push_cast
  have harg : 2 * Real.pi * (1 : ℝ) / ((5 : ℝ) - 1) = Real.pi / 2 := by ring
  rw [harg, Real.cos_pi_div_two]
  norm_num

theorem hannWeight_five_two : hannWeight 5 2 = 1 := by
  unfold hannWeight
  push_cast
  have harg : 2 * Real.pi * (2 : ℝ) / ((5 : ℝ) - 1) = Real.pi := by ring
  rw [harg, Real.cos_pi]
  norm_num

theorem hannWeight_five_three : hannWeight 5 3 = 1 / 2 := by
  unfold hannWeight
  push_cast
  have harg : 2 * Real.pi * (3 : ℝ) / ((5 : ℝ) - 1) = Real.pi + Real.pi / 2 := by ring
  rw [harg, Real.cos_add, Real.cos_pi, Real.sin_pi, Real.cos_pi_div_two]
  norm_num

theorem hannWeight_five_four : hannWeight 5 4 = 0 := by
  unfold hannWeight
  push_cast
  have harg : 2 * Real.pi * (4 : ℝ) / ((5 : ℝ) - 1) = 2 * Real.pi := by ring
  rw [harg, Real.cos_two_pi]
  norm_num

/-- The windowed buffer of a zero-mean five-sample frame. -/
theorem windowedBuf_five (x0 x1 x2 x3 x4 : ℝ) (hmean : x0 + x1 + x2 + x3 + x4 = 0) :
    windowedBuf [x0, x1, x2, x3, x4] = [0, x1 / 2, x2, x3 / 2, 0] := by
  unfold windowedBuf
  have hlen : ([x0, x1, x2, x3, x4] : List ℝ).length = 5 := rfl
  rw [hlen]
  have hsum : ([x0, x1, x2, x3, x4] : List ℝ).sum = 0 := by
    simp [List.sum_cons]
    linarith
  rw [hsum]
  norm_num
  have hrange : List.range 5 = [0, 1, 2, 3, 4] := rfl
  rw [hrange]
  simp only [List.map_cons, List.map_nil, List.getD]
  rw [hannWeight_five_zero, hannWeight_five_one, hannWeight_five_two,
    hannWeight_five_three, hannWeight_five_four]
  norm_num
  constructor
  · ring
  · ring

theorem cex_buf : windowedBuf [0, 1, 0, -1, 0] = [0, 1 / 2, 0, -(1 / 2), 0] := by
  rw [windowedBuf_five 0 1 0 (-1) 0 (by norm_num)]
  norm_num

theorem cex_rms : ¬ calcRms (windowedBuf [0, 1, 0, -1, 0]) < 0.01 := by
  rw [cex_buf]
  unfold calcRms
  have hsum : (([0, 1 / 2, 0, -(1 / 2), 0] : List ℝ).map (fun v => v * v)).sum = 1 / 2 := by
    norm_num [List.map]
  rw [hsum]
  push_neg
  have hlen : (([0, 1 / 2, 0, -(1 / 2), 0] : List ℝ).length : ℝ) = 5 := by norm_num
  rw [hlen]
  rw [show (1 / 2 : ℝ) / 5 = 1 / 10 by norm_num]
  rw [Real.le_sqrt (by norm_num) (by norm_num)]
  norm_num

theorem cex_ac0 : ac [0, 1 / 2, 0, -(1 / 2), 0] 0 = 1 / 2 := by
  unfold ac
  norm_num [List.zipWith, List.drop]

theorem cex_ac1 : ac [0, 1 / 2, 0, -(1 / 2), 0] 1 = 0 := by
  unfold ac
  norm_num [List.zipWith, List.drop]

theorem cex_ac2 : ac [0, 1 / 2, 0, -(1 / 2), 0] 2 = -(1 / 4) := by
  unfold ac
  norm_num [List.zipWith, List.drop]

theorem cex_ac3 : ac [0, 1 / 2, 0, -(1 / 2), 0] 3 = 0 := by
  unfold ac
  norm_num [List.zipWith, List.drop]

theorem cex_lags :
    lagList (detectMinLag 1000) (detectMaxLag [0, 1, 0, -1, 0] 1000) = [1, 2, 3] := by
  have hmin : detectMinLag 1000 = 1 := by
    unfold detectMinLag
    norm_num
  have hmax : detectMaxLag [0, 1, 0, -1, 0] 1000 = 3 := by
    unfold detectMaxLag
    norm_num
  rw [hmin, hmax]
  decide

theorem cex_bestLag : detectBestLag [0, 1, 0, -1, 0] 1000 = 1 := by
  unfold detectBestLag bestLagOf
  rw [cex_lags, cex_buf]
  simp only [List.foldl_cons, List.foldl_nil]
  have s1 : acSearchStep [0, 1 / 2, 0, -(1 / 2), 0] (-1, none) 1 = (1, some 0) := by
    unfold acSearchStep
    rw [cex_ac1]
  rw [s1]
  have s2 : acSearchStep [0, 1 / 2, 0, -(1 / 2), 0] (1, some 0) 2 = (1, some 0) := by
    unfold acSearchStep
    rw [cex_ac2]
    norm_num
  rw [s2]
  have s3 : acSearchStep [0, 1 / 2, 0, -(1 / 2), 0] (1, some 0) 3 = (1, some 0) := by
    unfold acSearchStep
    rw [cex_ac3]
    norm_num
  rw [s3]

theorem cex_refinedLag : refinedLag [0, 1, 0, -1, 0] 1000 = 5 / 2 := by
  unfold refinedLag
  rw [cex_bestLag, cex_buf]
  norm_num [cex_ac0, cex_ac1, cex_ac2]

theorem cex_f0 : refinedF0 [0, 1, 0, -1, 0] 1000 = 400 := by
  unfold refinedF0
  rw [cex_refinedLag]
  norm_num

theorem cex_conf : rawConfidence [0, 1, 0, -1, 0] 1000 = 0 := by
  unfold rawConfidence
  rw [cex_bestLag, cex_buf]
  dsimp only
  rw [cex_ac0, cex_ac1]
  rw [if_pos (by norm_num : (0 : ℝ) < 1 / 2)]
  unfold clamp01 clampQ
  norm_num

theorem cex_detectPitch : detectPitch [0, 1, 0, -1, 0] 1000 = (400, 0) := by
  unfold detectPitch
  rw [if_neg cex_rms, if_neg (by rw [cex_bestLag]; norm_num), cex_f0,
    if_neg (by norm_num), cex_conf]

/-- C7 counterexample: `detectPitch` hard-codes the bounds `[80, 1000]` and
ignores the caller's `minFrequency`/`maxFrequency`.  On the frame
`[0, 1, 0, -1, 0]` at 1000 Hz the refined frequency is 400, outside the valid
caller bounds `[40, 200]`, yet the estimator returns the frequency 400 —
not an absent frequency. -/
theorem C7_counterexample : ¬ callerBoundsClaim := by
  intro hcl
  have h := hcl [0, 1, 0, -1, 0] 1000 40 200 (by norm_num) (by norm_num)
    (by norm_num) (by norm_num) cex_rms (by rw [cex_bestLag]; norm_num)
    (by rw [cex_f0]; norm_num)
  rw [cex_detectPitch, cex_conf] at h
  have h400 : (400 : ℝ) = 0 := congrArg Prod.fst h
  exact absurd h400 (by norm_num)

/-- C7 (amended): `detectPitch` checks the refined frequency against its fixed
internal bounds `[80, 1000]` (callers supply no bounds); when the frequency
falls outside them the estimator returns an absent frequency together with
`0.1` times the computed confidence. -/
theorem C7_amended_fixed_bounds (x : List ℝ) (sr : ℝ)
    (hrms : ¬ calcRms (windowedBuf x) < 0.01)
    (hlag : 0 < detectBestLag x sr)
    (hout : refinedF0 x sr < 80 ∨ refinedF0 x sr > 1000) :
    detectPitch x sr = (0, 0.1 * rawConfidence x sr) := by
  unfold detectPitch
  rw [if_neg hrms, if_neg (not_le.mpr hlag), if_pos hout]

theorem wit_buf : windowedBuf [-3, 2, 2, 2, -3] = [0, 1, 2, 1, 0] := by
  rw [windowedBuf_five (-3) 2 2 2 (-3) (by norm_num)]
  norm_num

theorem wit_rms : ¬ calcRms (windowedBuf [-3, 2, 2, 2, -3]) < 0.01 := by
  rw [wit_buf]
  unfold calcRms
  have hsum : (([0, 1, 2, 1, 0] : List ℝ).map (fun v => v * v)).sum = 6 := by
    norm_num [List.map]
  rw [hsum]
  push_neg
  have hlen : (([0, 1, 2, 1, 0] : List ℝ).length : ℝ) = 5 := by norm_num
  rw [hlen]
  rw [Real.le_sqrt (by norm_num) (by norm_num)]
  norm_num

theorem wit_ac0 : ac [0, 1, 2, 1, 0] 0 = 6 := by
  unfold ac
  norm_num [List.zipWith, List.drop]

theorem wit_ac1 : ac [0, 1, 2, 1, 0] 1 = 4 := by
  unfold ac
  norm_num [List.zipWith, List.drop]

theorem wit_ac2 : ac [0, 1, 2, 1, 0] 2 = 1 := by
  unfold ac
  norm_num [List.zipWith, List.drop]

theorem wit_ac3 : ac [0, 1, 2, 1, 0] 3 = 0 := by
  unfold ac
  norm_num [List.zipWith, List.drop]

theorem wit_lags :
    lagList (detectMinLag 1000) (detectMaxLag [-3, 2, 2, 2, -3] 1000) = [1, 2, 3] := by
  have hmin : detectMinLag 1000 = 1 := by
    unfold detectMinLag
    norm_num
  have hmax : detectMaxLag [-3, 2, 2, 2, -3] 1000 = 3 := by
    unfold detectMaxLag
    norm_num
  rw [hmin, hmax]
  decide

theorem wit_bestLag : detectBestLag [-3, 2, 2, 2, -3] 1000 = 1 := by
  unfold detectBestLag bestLagOf
  rw [wit_lags, wit_buf]
  simp only [List.foldl_cons, List.foldl_nil]
  have s1 : acSearchStep [0, 1, 2, 1, 0] (-1, none) 1 = (1, some 4) := by
    unfold acSearchStep
    rw [wit_ac1]
  rw [s1]
  have s2 : acSearchStep [0, 1, 2, 1, 0] (1, some 4) 2 = (1, some 4) := by
    unfold acSearchStep
    rw [wit_ac2]
    norm_num
  rw [s2]
  have s3 : acSearchStep [0, 1, 2, 1, 0] (1, some 4) 3 = (1, some 4) := by
    unfold acSearchStep
    rw [wit_ac3]
    norm_num
  rw [s3]

theorem wit_refinedLag : refinedLag [-3, 2, 2, 2, -3] 1000 = -(3 / 2) := by
  unfold refinedLag
  rw [wit_bestLag, wit_buf]
  norm_num [wit_ac0, wit_ac1, wit_ac2]

theorem wit_f0 : refinedF0 [-3, 2, 2, 2, -3] 1000 = 0 := by
  unfold refinedF0
  rw [wit_refinedLag]
  norm_num

theorem wit_conf : rawConfidence [-3, 2, 2, 2, -3] 1000 = 2 / 3 := by
  unfold rawConfidence
  rw [wit_bestLag, wit_buf]
  dsimp only
  rw [wit_ac0, wit_ac1]
  rw [if_pos (by norm_num : (0 : ℝ) < 6)]
  unfold clamp01 clampQ
  norm_num

/-- Witness for C7 (amended): the frame `[-3, 2, 2, 2, -3]` at 1000 Hz yields a
refined lag of `-1.5`, an out-of-bounds frequency 0, and result
`(0, 0.1 × (2/3))`. -/
theorem C7_amended_fixed_bounds_witness :
    detectPitch [-3, 2, 2, 2, -3] 1000 = (0, 1 / 15) := by
  have h := C7_amended_fixed_bounds [-3, 2, 2, 2, -3] 1000 wit_rms
    (by rw [wit_bestLag]; norm_num) (by rw [wit_f0]; norm_num)
  rw [wit_conf] at h
  rw [h]
  norm_num

theorem addInto_length (out : List ℝ) (pos : ℕ) (v : ℝ) :
    (addInto out pos v).length = out.length := by
  unfold addInto
  exact List.length_set out pos _

theorem foldl_length_preserved {β : Type} (f : List ℝ → β → List ℝ)
    (hf : ∀ (o : List ℝ) (n : β), (f o n).length = o.length) (l : List β) :
    ∀ out : List ℝ, (l.foldl f out).length = out.length := by
  induction l with
  | nil => intro out; rfl
  | cons n l ih =>
    intro out
    rw [List.foldl_cons, ih, hf]

theorem crossfadeStep_length (prevTail proc : List ℝ) (fadeEnd start : ℕ)
    (o : List ℝ) (n : ℕ) :
    (crossfadeStep prevTail proc fadeEnd start o n).length = o.length := by
  unfold crossfadeStep
  exact addInto_length o (start + n) _

theorem directStep_length (proc : List ℝ) (start : ℕ) (o : List ℝ) (n : ℕ) :
    (directStep proc start o n).length = o.length := by
  unfold directStep
  exact addInto_length o (start + n) _

theorem writeChunk_length (out prevTail proc : List ℝ) (start chunkN overlapN : ℕ) :
    (writeChunk out prevTail proc start chunkN overlapN).length = out.length := by
  unfold writeChunk
  dsimp only
  rw [foldl_length_preserved _ (directStep_length proc start),
    foldl_length_preserved _ (crossfadeStep_length prevTail proc _ start)]

theorem paStep_out_length (shift : List ℝ → ℝ → List ℝ) (sr : ℝ) (scale : List ℤ)
    (input : List ℝ) (chunkN overlapN : ℕ) (i start : ℕ) (st : PAState) :
    (paStep shift sr scale input chunkN overlapN i start st).out.length =
      st.out.length := by
  unfold paStep
  dsimp only
  rw [writeChunk_length]

theorem paLoop_out_length (shift : List ℝ → ℝ → List ℝ) (sr : ℝ) (scale : List ℤ)
    (input : List ℝ) (chunkN overlapN hopN : ℕ) :
    ∀ (fuel i start : ℕ) (st : PAState),
      (paLoop shift sr scale input chunkN overlapN hopN fuel i start st).out.length =
        st.out.length := by
  intro fuel
  induction fuel with
  | zero =>
    intro i start st
    rw [paLoop, if_pos rfl]
  | succ fuel ih =>
    intro i start st
    rw [paLoop, if_neg (by omega)]
    by_cases h : start < input.length
    · rw [if_pos h]
      have hfs : fuel + 1 - 1 = fuel := by omega
      rw [hfs, ih _ _ _, paStep_out_length]
    · rw [if_neg h]

theorem softClip_length (x : List ℝ) : (softClip x).length = x.length := by
  unfold softClip
  exact List.length_map x _

/-- C2: the output buffer of the overlap-add pass has exactly the length of
the input buffer, for every input and every valid configuration. -/
theorem C2_reconstruction_length (shift : List ℝ → ℝ → List ℝ)
    (SR CHUNK_MS OVERLAP_MS : ℝ) (input : List ℝ)
    (hc1 : 50 ≤ CHUNK_MS) (hc2 : CHUNK_MS ≤ 200)
    (ho1 : 5 ≤ OVERLAP_MS) (ho2 : OVERLAP_MS ≤ CHUNK_MS / 2) :
    (processAudio shift SR CHUNK_MS OVERLAP_MS input).1.length = input.length := by
  unfold processAudio
  dsimp only
  rw [softClip_length, paLoop_out_length _ _ _ _ _ _ _ _ 0 0 _]
  exact List.length_replicate _ _

/-- Witness for C2 at a concrete configuration and buffer. -/
theorem C2_reconstruction_length_witness :
    (processAudio passShift 48000 120 12 [1, 2, 3]).1.length = 3 :=
  C2_reconstruction_length passShift 48000 120 12 [1, 2, 3]
    (by norm_num) (by norm_num) (by norm_num) (by norm_num)

theorem getD_zero_of_all_zero {l : List ℝ} (h : ∀ v ∈ l, v = 0) (n : ℕ) :
    l.getD n 0 = 0 := by
  rw [List.getD_eq_getElem?_getD]
  cases hg : l[n]? with
  | none => rfl
  | some a => simpa using h a (List.getElem?_mem hg)

theorem slicePadded_all_zero {x : List ℝ} (h : ∀ v ∈ x, v = 0) (s n : ℕ) :
    slicePadded x s n = List.replicate n 0 := by
  unfold slicePadded
  dsimp only
  rw [List.eq_replicate_iff]
  constructor
  · rw [List.length_append, List.length_replicate]
    have : ((x.drop s).take n).length ≤ n := by
      rw [List.length_take]
      omega
    omega
  · intro b hb
    rcases List.mem_append.mp hb with hb | hb
    · exact h b (List.mem_of_mem_drop (List.mem_of_mem_take hb))
    · exact List.eq_of_mem_replicate hb

theorem fitLength_of_length_eq {x : List ℝ} {n : ℕ} (h : x.length = n) :
    fitLength x n = x := by
  unfold fitLength
  rw [if_pos h]

theorem addInto_replicate_zero (L p : ℕ) :
    addInto (List.replicate L (0 : ℝ)) p 0 = List.replicate L 0 := by
  unfold addInto
  rw [getD_zero_of_all_zero (fun v hv => List.eq_of_mem_replicate hv)]
  rw [List.eq_replicate_iff]
  refine ⟨by rw [List.length_set, List.length_replicate], ?_⟩
  intro b hb
  rcases List.mem_or_eq_of_mem_set hb with hb | hb
  · exact List.eq_of_mem_replicate hb
  · rw [hb]; norm_num

theorem foldl_preserves_replicate_zero {β : Type} (f : List ℝ → β → List ℝ) (L : ℕ)
    (l : List β) (hf : ∀ n ∈ l, f (List.replicate L 0) n = List.replicate L 0) :
    l.foldl f (List.replicate L 0) = List.replicate L 0 := by
  induction l with
  | nil => rfl
  | cons n l ih =>
    rw [List.foldl_cons, hf n (List.mem_cons_self n l)]
    exact ih (fun m hm => hf m (List.mem_cons_of_mem _ hm))

theorem crossfadeStep_zero (L : ℕ) {prevTail proc : List ℝ}
    (hpt : ∀ v ∈ prevTail, v = 0) (hpr : ∀ v ∈ proc, v = 0)
    (fadeEnd start n : ℕ) :
    crossfadeStep prevTail proc fadeEnd start (List.replicate L 0) n =
      List.replicate L 0 := by
  unfold crossfadeStep
  dsimp only
  rw [getD_zero_of_all_zero hpt, getD_zero_of_all_zero hpr, zero_mul, zero_mul, add_zero]
  exact addInto_replicate_zero L (start + n)

theorem directStep_zero (L : ℕ) {proc : List ℝ} (hpr : ∀ v ∈ proc, v = 0)
    (start n : ℕ) :
    directStep proc start (List.replicate L 0) n = List.replicate L 0 := by
  unfold directStep
  rw [getD_zero_of_all_zero hpr]
  exact addInto_replicate_zero L start |>.symm ▸ addInto_replicate_zero L (start + n)

theorem writeChunk_zero (L : ℕ) {prevTail proc : List ℝ}
    (hpt : ∀ v ∈ prevTail, v = 0) (hpr : ∀ v ∈ proc, v = 0)
    (start chunkN overlapN : ℕ) :
    writeChunk (List.replicate L 0) prevTail proc start chunkN overlapN =
      List.replicate L 0 := by
  unfold writeChunk
  dsimp only
  rw [foldl_preserves_replicate_zero _ L _
    (fun n _ => crossfadeStep_zero L hpt hpr _ start n)]
  exact foldl_preserves_replicate_zero _ L _
    (fun n _ => directStep_zero L hpr start n)

theorem paStep_zero (shift : List ℝ → ℝ → List ℝ) (sr : ℝ) (scale : List ℤ)
    (L chunkN overlapN i start : ℕ) (st : PAState)
    (hshift : ∀ f : List ℝ, shift f 1 = f)
    (hout : st.out = List.replicate L 0) (hpt : ∀ v ∈ st.prevTail, v = 0) :
    (paStep shift sr scale (List.replicate L 0) chunkN overlapN i start st).out =
        List.replicate L 0 ∧
      ∀ v ∈ (paStep shift sr scale (List.replicate L 0) chunkN overlapN
        i start st).prevTail, v = 0 := by
  unfold paStep
  have hraw : slicePadded (List.replicate L (0 : ℝ)) start chunkN =
      List.replicate chunkN 0 :=
    slicePadded_all_zero (fun v hv => List.eq_of_mem_replicate hv) start chunkN
  dsimp only
  rw [hraw, detectPitch_zero_frame]
  dsimp only
  rw [if_neg (by norm_num : ¬((0 : ℝ) > 0 ∧ (0 : ℝ) ≥ 0.35))]
  dsimp only
  rw [hshift, fitLength_of_length_eq (List.length_replicate chunkN 0), hout]
  constructor
  · exact writeChunk_zero L hpt (fun v hv => List.eq_of_mem_replicate hv)
      start chunkN overlapN
  · intro v hv
    exact List.eq_of_mem_replicate
      (List.mem_of_mem_take (by
        rw [List.drop_replicate] at hv
        exact hv))

theorem paLoop_zero (shift : List ℝ → ℝ → List ℝ) (sr : ℝ) (scale : List ℤ)
    (L chunkN overlapN hopN : ℕ)
    (hshift : ∀ f : List ℝ, shift f 1 = f) :
    ∀ (fuel i start : ℕ) (st : PAState),
      st.out = List.replicate L 0 → (∀ v ∈ st.prevTail, v = 0) →
      (paLoop shift sr scale (List.replicate L 0) chunkN overlapN hopN
        fuel i start st).out = List.replicate L 0 := by
  intro fuel
  induction fuel with
  | zero =>
    intro i start st hout hpt
    rw [paLoop, if_pos rfl]
    exact hout
  | succ fuel ih =>
    intro i start st hout hpt
    rw [paLoop, if_neg (by omega)]
    by_cases h : start < (List.replicate L (0 : ℝ)).length
    · rw [if_pos h]
      obtain ⟨h1, h2⟩ := paStep_zero shift sr scale L chunkN overlapN i start st
        hshift hout hpt
      have hfs : fuel + 1 - 1 = fuel := by omega
      rw [hfs]
      exact ih _ _ _ h1 h2
    · rw [if_neg h]
      exact hout

theorem softClip_replicate_zero (L : ℕ) :
    softClip (List.replicate L (0 : ℝ)) = List.replicate L 0 := by
  unfold softClip
  rw [List.map_replicate]
  norm_num

theorem analyzeStep_zero_voiced (L : ℕ) (sr : ℝ) (s : Settings) (gateLin : ℝ)
    (minLag maxLag : ℤ) (cs : ℕ) (hgate : 0 < gateLin) (a : AnalyzeState) (i : ℕ) :
    (analyzeStep (List.replicate L 0) sr s gateLin minLag maxLag cs a i).voicedCount =
      a.voicedCount := by
  unfold analyzeStep
  dsimp only
  rw [List.drop_replicate, List.take_replicate, calcRms_replicate_zero,
    if_pos hgate]

theorem analyze_zero_voicedCount (L : ℕ) (sr : ℝ) (s : Settings) :
    (analyzeMonophonicPitch (List.replicate L 0) sr s).voicedCount = 0 := by
  unfold analyzeMonophonicPitch
  dsimp only
  have hgate : 0 < dbToLin ((s.gateDb : ℤ) : ℝ) := by
    unfold dbToLin
    exact Real.rpow_pos_of_pos (by norm_num) _
  have hfold : ∀ (l : List ℕ) (a : AnalyzeState),
      (l.foldl (analyzeStep (List.replicate L 0) sr s
        (dbToLin ((s.gateDb : ℤ) : ℝ))
        (⌊sr / ((s.maxF0 : ℤ) : ℝ)⌋) (⌊sr / ((s.minF0 : ℤ) : ℝ)⌋)
        ((⌊sr * (((s.chunkMs : ℤ) : ℝ) / 1000)⌋).toNat)) a).voicedCount =
      a.voicedCount := by
    intro l
    induction l with
    | nil => intro a; rfl
    | cons i l ih =>
      intro a
      rw [List.foldl_cons, ih, analyzeStep_zero_voiced _ _ _ _ _ _ _ hgate]
  set fin := (chunkStarts (List.replicate L (0 : ℝ)).length
      ((⌊sr * (((s.chunkMs : ℤ) : ℝ) / 1000)⌋).toNat)).foldl
      (analyzeStep (List.replicate L 0) sr s (dbToLin ((s.gateDb : ℤ) : ℝ))
        (⌊sr / ((s.maxF0 : ℤ) : ℝ)⌋) (⌊sr / ((s.minF0 : ℤ) : ℝ)⌋)
        ((⌊sr * (((s.chunkMs : ℤ) : ℝ) / 1000)⌋).toNat)) ⟨0, 0, none, none, []⟩
    with hfin
  have hv : fin.voicedCount = 0 := by
    rw [hfin]
    exact hfold _ _
  cases hfm : fin.firstMidi with
  | none => exact hv
  | some fm => exact hv

/-- C3: round-trip silence — with a pass-through shift primitive at ratio 1,
an all-zero input of any length yields an all-zero output, and the analysis
pass reports zero voiced chunks. -/
theorem C3_round_trip_silence (shift : List ℝ → ℝ → List ℝ)
    (SR CHUNK_MS OVERLAP_MS : ℝ) (L : ℕ) (sr : ℝ) (s : Settings)
    (hshift : ∀ f : List ℝ, shift f 1 = f) :
    (processAudio shift SR CHUNK_MS OVERLAP_MS (List.replicate L 0)).1 =
        List.replicate L 0 ∧
      (analyzeMonophonicPitch (List.replicate L 0) sr s).voicedCount = 0 := by
  constructor
  · unfold processAudio
    dsimp only
    rw [List.length_replicate]
    rw [paLoop_zero shift SR _ L _ _ _ hshift (L + 1) 0 0 _
      rfl (fun v hv => List.eq_of_mem_replicate hv)]
    exact softClip_replicate_zero L
  · exact analyze_zero_voicedCount L sr s

/-- Witness for C3 with the concrete pass-through primitive. -/
theorem C3_round_trip_silence_witness :
    (processAudio passShift 48000 120 12 (List.replicate 5 0)).1 =
        List.replicate 5 0 ∧
      (analyzeMonophonicPitch (List.replicate 5 0) 48000
        (getSettings 120 12 (-45) 70 900)).voicedCount = 0 :=
  C3_round_trip_silence passShift 48000 120 12 5 48000
    (getSettings 120 12 (-45) 70 900) (fun f => rfl)

theorem paStep_frames_prop (shift : List ℝ → ℝ → List ℝ) (sr : ℝ) (scale : List ℤ)
    (input : List ℝ) (chunkN overlapN i start : ℕ) (st : PAState) :
    ∀ fr ∈ (paStep shift sr scale input chunkN overlapN i start st).frames,
      fr ∈ st.frames ∨
        (¬(fr.f0 > 0 ∧ fr.confidence ≥ 0.35) → fr.ratio = 1 ∧ fr.targetMidi = none) := by
  intro fr hfr
  unfold paStep at hfr
  dsimp only at hfr
  rcases List.mem_append.mp hfr with h | h
  · exact Or.inl h
  · right
    rw [List.mem_singleton] at h
    subst h
    intro hneg
    by_cases hcond : (detectPitch (slicePadded input start chunkN) sr).1 > 0 ∧
        (detectPitch (slicePadded input start chunkN) sr).2 ≥ 0.35
    · exact absurd hcond hneg
    · rw [if_neg hcond]
      exact ⟨rfl, rfl⟩

theorem paLoop_frames_prop (shift : List ℝ → ℝ → List ℝ) (sr : ℝ) (scale : List ℤ)
    (input : List ℝ) (chunkN overlapN hopN : ℕ) :
    ∀ (fuel i start : ℕ) (st : PAState),
      ∀ fr ∈ (paLoop shift sr scale input chunkN overlapN hopN fuel i start st).frames,
        fr ∈ st.frames ∨
          (¬(fr.f0 > 0 ∧ fr.confidence ≥ 0.35) → fr.ratio = 1 ∧ fr.targetMidi = none) := by
  intro fuel
  induction fuel with
  | zero =>
    intro i start st fr hfr
    rw [paLoop, if_pos rfl] at hfr
    exact Or.inl hfr
  | succ fuel ih =>
    intro i start st fr hfr
    rw [paLoop, if_neg (by omega)] at hfr
    by_cases h : start < input.length
    · rw [if_pos h] at hfr
      have hfs : fuel + 1 - 1 = fuel := by omega
      rw [hfs] at hfr
      rcases ih _ _ _ fr hfr with h1 | h1
      · exact paStep_frames_prop shift sr scale input chunkN overlapN i start st fr h1
      · exact Or.inr h1
    · rw [if_neg h] at hfr
      exact Or.inl hfr

theorem processAudio_frames_prop (shift : List ℝ → ℝ → List ℝ)
    (SR CHUNK_MS OVERLAP_MS : ℝ) (input : List ℝ) :
    ∀ fr ∈ (processAudio shift SR CHUNK_MS OVERLAP_MS input).2,
      ¬(fr.f0 > 0 ∧ fr.confidence ≥ 0.35) → fr.ratio = 1 ∧ fr.targetMidi = none := by
  intro fr hfr
  unfold processAudio at hfr
  dsimp only at hfr
  rcases paLoop_frames_prop shift SR _ input _ _ _ (input.length + 1) 0 0 _
      fr hfr with h | h
  · exact absurd h (List.not_mem_nil fr)
  · exact h

theorem planEntry_voiced_false (mono : List ℝ) (sr : ℝ) (s : Settings) (gateLin : ℝ)
    (minLag maxLag : ℤ) (keyRoot : Option ℤ) (chunkSize xfade i : ℕ)
    (hv : (planEntry mono sr s gateLin minLag maxLag keyRoot chunkSize xfade i).voiced =
      false) :
    (planEntry mono sr s gateLin minLag maxLag keyRoot chunkSize xfade i).shiftSemis =
      0 := by
  unfold planEntry at hv ⊢
  dsimp only at hv ⊢
  by_cases h1 : ¬ calcRms ((mono.drop i).take chunkSize) < gateLin ∧ keyRoot.isSome
  · rw [if_pos h1] at hv ⊢
    cases hk : keyRoot with
    | none =>
      cases he : estimateF0_AMDF ((mono.drop i).take chunkSize) sr minLag maxLag with
      | none => rfl
      | some hz => rfl
    | some kr =>
      cases he : estimateF0_AMDF ((mono.drop i).take chunkSize) sr minLag maxLag with
      | none => rfl
      | some hz =>
        rw [hk, he] at hv
        dsimp only at hv ⊢
        by_cases h2 : hz ≠ 0 ∧ ((s.minF0 : ℤ) : ℝ) ≤ hz ∧ hz ≤ ((s.maxF0 : ℤ) : ℝ)
        · rw [if_pos h2] at hv
          exact absurd hv (by norm_num)
        · rw [if_neg h2]
  · rw [if_neg h1] at hv ⊢

/-- C4: unvoiced (or out-of-range) frames pass through unshifted — every chunk
plan entry with `voiced = false` has `shiftSemis = 0`, and every worker frame
whose detected pitch fails the gate (`f0 ≤ 0` or confidence below `0.35`) has
ratio exactly 1 and no target. -/
theorem C4_unvoiced_passthrough (mono : List ℝ) (sr : ℝ) (s : Settings)
    (shift : List ℝ → ℝ → List ℝ) (SR CHUNK_MS OVERLAP_MS : ℝ) (input : List ℝ) :
    (∀ e ∈ (buildChunkPitchPlan mono sr s).2, e.voiced = false → e.shiftSemis = 0) ∧
    (∀ fr ∈ (processAudio shift SR CHUNK_MS OVERLAP_MS input).2,
      ¬(fr.f0 > 0 ∧ fr.confidence ≥ 0.35) → fr.ratio = 1 ∧ fr.targetMidi = none) := by
  constructor
  · intro e he hv
    unfold buildChunkPitchPlan at he
    dsimp only at he
    obtain ⟨i, _, rfl⟩ := List.mem_map.mp he
    exact planEntry_voiced_false mono sr s _ _ _ _ _ _ i hv
  · exact processAudio_frames_prop shift SR CHUNK_MS OVERLAP_MS input

/-- C10: a worker frame's shift ratio differs from 1 only when the detected
f0 is strictly positive and the confidence is at least `0.35`; below-threshold
frames keep ratio 1 and a null target MIDI. -/
theorem C10_confidence_gate (shift : List ℝ → ℝ → List ℝ)
    (SR CHUNK_MS OVERLAP_MS : ℝ) (input : List ℝ) :
    ∀ fr ∈ (processAudio shift SR CHUNK_MS OVERLAP_MS input).2,
      (fr.ratio ≠ 1 → fr.f0 > 0 ∧ fr.confidence ≥ 0.35) ∧
      (fr.confidence < 0.35 → fr.ratio = 1 ∧ fr.targetMidi = none) := by
  intro fr hfr
  have hp := processAudio_frames_prop shift SR CHUNK_MS OVERLAP_MS input fr hfr
  constructor
  · intro hne
    by_contra hcon
    exact hne (hp hcon).1
  · intro hconf
    apply hp
    intro hcond
    exact absurd hcond.2 (not_le.mpr hconf)

theorem slicePadded_single_zero :
    slicePadded [(0 : ℝ)] 0 50 = List.replicate 50 0 := by
  apply slicePadded_all_zero
  intro v hv
  simpa using hv

theorem pickRootMidi_zero_single : pickRootMidi [0] [0] = 69 := by
  unfold pickRootMidi
  have hfind : (([0] : List ℝ).zip ([0] : List ℝ)).find?
      (fun pc => decide (pc.1 > 0 ∧ pc.2 ≥ 0.4)) = none := by
    rw [List.find?_eq_none]
    intro q hq
    have : q = ((0 : ℝ), (0 : ℝ)) := by simpa [List.zip] using hq
    subst this
    simp only [decide_eq_true_eq]
    norm_num
  rw [hfind]

theorem paStep_zero_single (scale : List ℤ) :
    paStep passShift 1000 scale [0] 50 5 0 0 ⟨[0], List.replicate 5 0, []⟩ =
      ⟨[0], List.replicate 5 0, [⟨0, 0, 0, 0, 1, none⟩]⟩ := by
  unfold paStep
  dsimp only
  rw [slicePadded_single_zero, detectPitch_zero_frame]
  dsimp only
  rw [if_neg (by norm_num : ¬((0 : ℝ) > 0 ∧ (0 : ℝ) ≥ 0.35))]
  dsimp only
  unfold passShift
  rw [fitLength_of_length_eq (List.length_replicate 50 0)]
  rw [show ([(0 : ℝ)] : List ℝ) = List.replicate 1 0 from rfl]
  rw [writeChunk_zero 1 (fun v hv => List.eq_of_mem_replicate hv)
    (fun v hv => List.eq_of_mem_replicate hv) 0 50 5]
  rw [List.drop_replicate, List.take_replicate]
  norm_num

theorem paLoop_zero_single (scale : List ℤ) :
    paLoop passShift 1000 scale [0] 50 5 45 2 0 0 ⟨[0], List.replicate 5 0, []⟩ =
      ⟨[0], List.replicate 5 0, [⟨0, 0, 0, 0, 1, none⟩]⟩ := by
  rw [paLoop, if_neg (by norm_num), if_pos (by norm_num : (0 : ℕ) < ([(0 : ℝ)] : List ℝ).length)]
  rw [paStep_zero_single scale]
  rw [paLoop, if_neg (by norm_num), if_neg (by norm_num : ¬(0 + 45 < ([(0 : ℝ)] : List ℝ).length))]

theorem pitchScanLoop_zero_single :
    pitchScanLoop 1000 [0] 50 45 2 0 ([], []) = ([0], [0]) := by
  rw [pitchScanLoop, if_neg (by norm_num),
    if_pos (by norm_num : (0 : ℕ) < ([(0 : ℝ)] : List ℝ).length)]
  rw [pitchScanLoop, if_neg (by norm_num),
    if_neg (by norm_num : ¬(0 + 45 < ([(0 : ℝ)] : List ℝ).length))]
  rw [slicePadded_single_zero, detectPitch_zero_frame]
  rfl

theorem processAudio_zero_single :
    processAudio passShift 1000 50 5 [0] = ([0], [⟨0, 0, 0, 0, 1, none⟩]) := by
  unfold processAudio
  dsimp only
  have hchunk : (max 1 (jsRound ((50 : ℝ) / 1000 * 1000))).toNat = 50 := by
    have h : jsRound ((50 : ℝ) / 1000 * 1000) = 50 := by
      unfold jsRound
      norm_num
    rw [h]
    decide
  have hover : (max 1 (jsRound ((5 : ℝ) / 1000 * 1000))).toNat = 5 := by
    have h : jsRound ((5 : ℝ) / 1000 * 1000) = 5 := by
      unfold jsRound
      norm_num
    rw [h]
    decide
  rw [hchunk, hover]
  have hhop : max 1 (50 - 5) = 45 := by decide
  rw [hhop]
  have hlen : ([(0 : ℝ)] : List ℝ).length + 1 = 2 := rfl
  rw [hlen]
  rw [pitchScanLoop_zero_single, pickRootMidi_zero_single]
  rw [show List.replicate ([(0 : ℝ)] : List ℝ).length (0 : ℝ) = [(0 : ℝ)] from rfl]
  rw [paLoop_zero_single (buildMajorScaleMidi 69)]
  dsimp only
  unfold softClip
  norm_num

theorem plan_zero_single :
    buildChunkPitchPlan (List.replicate 2 0) 20 ⟨100, 12, -45, 70, 900⟩ =
      (none, [⟨0, 2, 0, false, none, none, none, 0⟩]) := by
  unfold buildChunkPitchPlan
  dsimp only
  have hgate : 0 < dbToLin ((-45 : ℤ) : ℝ) := by
    unfold dbToLin
    exact Real.rpow_pos_of_pos (by norm_num) _
  have hcs : (⌊(20 : ℝ) * (((100 : ℤ) : ℝ) / 1000)⌋).toNat = 2 := by
    norm_num
    decide
  have hxf : (⌊(20 : ℝ) * (((12 : ℤ) : ℝ) / 1000)⌋).toNat = 0 := by
    norm_num
  rw [hcs, hxf]
  have hstarts : chunkStarts (List.replicate 2 (0 : ℝ)).length 2 = [0] := by decide
  rw [hstarts]
  have hslice : ((List.replicate 2 (0 : ℝ)).drop 0).take 2 = List.replicate 2 0 := by
    rw [List.drop_replicate, List.take_replicate]
    norm_num
  have hfind : ([0] : List ℕ).findSome? (fun i =>
      let slice := ((List.replicate 2 (0 : ℝ)).drop i).take 2
      if calcRms slice < dbToLin ((-45 : ℤ) : ℝ) then none
      else
        match estimateF0_AMDF slice 20 ⌊(20 : ℝ) / ((900 : ℤ) : ℝ)⌋
          ⌊(20 : ℝ) / ((70 : ℤ) : ℝ)⌋ with
        | none => none
        | some hz => if hz = 0 then none else some (jsRound (hzToMidi hz))) = none := by
    rw [List.findSome?_cons]
    dsimp only
    rw [hslice, calcRms_replicate_zero, if_pos hgate]
    rfl
  rw [hfind]
  have hentry : planEntry (List.replicate 2 0) 20 ⟨100, 12, -45, 70, 900⟩
      (dbToLin ((-45 : ℤ) : ℝ)) ⌊(20 : ℝ) / ((900 : ℤ) : ℝ)⌋
      ⌊(20 : ℝ) / ((70 : ℤ) : ℝ)⌋ none 2 0 0 =
      ⟨0, 2, 0, false, none, none, none, 0⟩ := by
    unfold planEntry
    dsimp only
    rw [if_neg (by simp)]
  rw [List.map_cons, List.map_nil, hentry]

/-- Witness for C4: a silent plan entry is unvoiced with `shiftSemis = 0`, and
a silent worker frame keeps ratio 1. -/
theorem C4_unvoiced_passthrough_witness :
    (⟨0, 2, 0, false, none, none, none, 0⟩ : ChunkEntry) ∈
        (buildChunkPitchPlan (List.replicate 2 0) 20 ⟨100, 12, -45, 70, 900⟩).2 ∧
      (⟨0, 2, 0, false, none, none, none, 0⟩ : ChunkEntry).shiftSemis = 0 ∧
      (⟨0, 0, 0, 0, 1, none⟩ : FrameDebug) ∈ (processAudio passShift 1000 50 5 [0]).2 ∧
      (⟨0, 0, 0, 0, 1, none⟩ : FrameDebug).ratio = 1 := by
  have hmem1 : (⟨0, 2, 0, false, none, none, none, 0⟩ : ChunkEntry) ∈
      (buildChunkPitchPlan (List.replicate 2 0) 20 ⟨100, 12, -45, 70, 900⟩).2 := by
    rw [plan_zero_single]
    exact List.mem_singleton.mpr rfl
  have hmem2 : (⟨0, 0, 0, 0, 1, none⟩ : FrameDebug) ∈
      (processAudio passShift 1000 50 5 [0]).2 := by
    rw [processAudio_zero_single]
    exact List.mem_singleton.mpr rfl
  refine ⟨hmem1, ?_, hmem2, ?_⟩
  · exact (C4_unvoiced_passthrough (List.replicate 2 0) 20 ⟨100, 12, -45, 70, 900⟩
      passShift 1000 50 5 [0]).1 _ hmem1 rfl
  · exact ((C4_unvoiced_passthrough (List.replicate 2 0) 20 ⟨100, 12, -45, 70, 900⟩
      passShift 1000 50 5 [0]).2 _ hmem2 (by norm_num)).1

/-- Witness for C10: a frame with confidence 0 keeps ratio 1 and no target
MIDI. -/
theorem C10_confidence_gate_witness :
    (⟨0, 0, 0, 0, 1, none⟩ : FrameDebug) ∈ (processAudio passShift 1000 50 5 [0]).2 ∧
      (⟨0, 0, 0, 0, 1, none⟩ : FrameDebug).ratio = 1 ∧
      (⟨0, 0, 0, 0, 1, none⟩ : FrameDebug).targetMidi = none := by
  have hmem : (⟨0, 0, 0, 0, 1, none⟩ : FrameDebug) ∈
      (processAudio passShift 1000 50 5 [0]).2 := by
    rw [processAudio_zero_single]
    exact List.mem_singleton.mpr rfl
  exact ⟨hmem, (C10_confidence_gate passShift 1000 50 5 [0] _ hmem).2 (by norm_num)⟩

theorem clampInt_mem {α : Type} [LinearOrderedField α] [FloorRing α]
    (v : α) (a b : ℤ) (hab : a ≤ b) :
    a ≤ clampInt v a b ∧ clampInt v a b ≤ b := by
  unfold clampInt
  exact ⟨le_max_left a _, max_le hab (min_le_left b _)⟩

theorem clampQ_mem {α : Type} [LinearOrderedField α] (v lo hi : α) (h : lo ≤ hi) :
    lo ≤ clampQ v lo hi ∧ clampQ v lo hi ≤ hi := by
  unfold clampQ
  exact ⟨le_max_left lo _, max_le h (min_le_left hi v)⟩

/-- C9 counterexample: `chunkMs = 1000` is outside `[50, 200]`, so the
spec-modelled validation rejects the configuration, but `getSettings` silently
clamps it to 200 and produces a fully in-bounds settings record — processing
proceeds instead of failing fast. -/
theorem C9_counterexample : ¬ failFastClaim := by
  intro hcl
  have hval : validateConfigSpec 1000 12 (-45) 70 900 = false := by
    unfold validateConfigSpec
    rw [decide_eq_false_iff_not]
    intro h
    exact absurd h.2.1 (by norm_num)
  have hset : getSettings 1000 12 (-45) 70 900 = ⟨200, 12, -45, 70, 900⟩ := by
    unfold getSettings orDefault clampInt
    have h1 : jsRound (1000 : ℚ) = 1000 := by unfold jsRound; norm_num
    have h2 : jsRound (12 : ℚ) = 12 := by unfold jsRound; norm_num
    have h3 : jsRound (-45 : ℚ) = -45 := by unfold jsRound; norm_num
    have h4 : jsRound (70 : ℚ) = 70 := by unfold jsRound; norm_num
    have h5 : jsRound (900 : ℚ) = 900 := by unfold jsRound; norm_num
    rw [if_neg (by norm_num : ¬(1000 : ℚ) = 0), if_neg (by norm_num : ¬(12 : ℚ) = 0),
      if_neg (by norm_num : ¬(-45 : ℚ) = 0), if_neg (by norm_num : ¬(70 : ℚ) = 0),
      if_neg (by norm_num : ¬(900 : ℚ) = 0), h1, h2, h3, h4, h5]
    simp only [Settings.mk.injEq]
    refine ⟨by decide, by decide, by decide, by decide, by decide⟩
  apply hcl 1000 12 (-45) 70 900 hval
  rw [hset]
  unfold settingsInBounds
  norm_num

/-- C9 (amended): out-of-bounds configuration fields are silently clamped into
their declared bounds — `getSettings` always yields in-bounds settings and the
worker clamps `CHUNK_MS` to `[50, 200]` and `OVERLAP_MS` to
`[5, CHUNK_MS/2]`; no `InvalidConfiguration` rejection exists anywhere. -/
theorem C9_amended_clamping :
    (∀ c x g mn mx : ℚ, settingsInBounds (getSettings c x g mn mx)) ∧
    (∀ cm om : ℚ, 50 ≤ workerChunkMs cm ∧ workerChunkMs cm ≤ 200 ∧
      5 ≤ workerOverlapMs (workerChunkMs cm) om ∧
      workerOverlapMs (workerChunkMs cm) om ≤ workerChunkMs cm / 2) := by
  constructor
  · intro c x g mn mx
    unfold settingsInBounds getSettings
    dsimp only
    obtain ⟨a1, a2⟩ := clampInt_mem (orDefault c 120) 50 200 (by norm_num)
    obtain ⟨b1, b2⟩ := clampInt_mem (orDefault x 12) 5 40 (by norm_num)
    obtain ⟨c1, c2⟩ := clampInt_mem (orDefault g (-45)) (-80) (-10) (by norm_num)
    obtain ⟨d1, d2⟩ := clampInt_mem (orDefault mn 70) 40 200 (by norm_num)
    obtain ⟨e1, e2⟩ := clampInt_mem (orDefault mx 900) 200 1200 (by norm_num)
    exact ⟨a1, a2, b1, b2, c1, c2, d1, d2, e1, e2⟩
  · intro cm om
    obtain ⟨h1, h2⟩ := clampQ_mem cm (50 : ℚ) 200 (by norm_num)
    rw [show clampQ cm (50 : ℚ) 200 = workerChunkMs cm from rfl] at h1 h2
    have hfl : (5 : ℚ) ≤ ((⌊workerChunkMs cm / 2⌋ : ℤ) : ℚ) := by
      have h25 : (25 : ℤ) ≤ ⌊workerChunkMs cm / 2⌋ := by
        apply Int.le_floor.mpr
        push_cast
        linarith
      have h25q : ((25 : ℤ) : ℚ) ≤ ((⌊workerChunkMs cm / 2⌋ : ℤ) : ℚ) := by
        exact_mod_cast h25
      linarith [h25q]
    obtain ⟨h3, h4⟩ := clampQ_mem om (5 : ℚ) ((⌊workerChunkMs cm / 2⌋ : ℤ) : ℚ) hfl
    rw [show clampQ om (5 : ℚ) ((⌊workerChunkMs cm / 2⌋ : ℤ) : ℚ) =
      workerOverlapMs (workerChunkMs cm) om from rfl] at h3 h4
    refine ⟨h1, h2, h3, le_trans h4 (Int.floor_le _)⟩
